import Mathlib

/-!
# unique_any: a fixed-capacity, move-only, type-erased container

A shallow embedding of `src/unique_any/main.cpp`.

The C++ object graph is modelled as a `World`: a map from addresses to the
`unique_any` objects that currently live there, together with a trace of the
payload constructor / destructor calls made so far.  A container is identified
by the address of its `type_erased_storage` member, which is also the only value
placement-new can return for it.  The two function pointers are modelled by the
payload type their lambda was instantiated for (`none` is `nullptr`).  Anything
C++ leaves undefined (calling a null function pointer, running a destructor or a
move constructor on storage that holds no object of the named type, using a
container that does not exist) is a `Fault`, and so is a program that cannot be
built or an execution that cannot happen.

A payload type is described by what the container's code depends on: its size and
alignment, whether it can be copied and moved, whether its move constructor may
throw, and whether braces around a single object of the type select an
initializer-list constructor.  A payload is a plain value: its destructor does not
throw, and its destructor and move constructor act on the payload objects alone, so a
payload that owns another container and destroys it is outside the model.
-/

namespace UniqueAny

/-- Address of a container's `type_erased_storage`; one per container object. -/
abbrev Addr := Nat

/-- What the container needs to know statically about a payload type `BaseType`:
an identity, `sizeof`, `alignof` and `std::is_move_constructible_v`. -/
structure PayloadType where
  type_id : Nat
  sizeof : Nat
  alignof : Nat
  move_constructible : Bool
  /-- The trait `std::is_copy_constructible_v<BaseType>`. -/
  copy_constructible : Bool := true
  /-- The trait `std::is_nothrow_move_constructible_v<BaseType>`. -/
  nothrow_move_constructible : Bool := true
  /-- Whether `BaseType{x}`, with `x` itself a `BaseType`, selects an initializer-list
  constructor of `BaseType` (as for `std::vector<std::any>`) and so builds a
  one-element `BaseType` holding `x`, instead of copying or moving `x`. -/
  list_constructor : Bool := false
deriving DecidableEq

/-- The constant `static constexpr std::size_t ALIGNMENT = 32;` -/
def ALIGNMENT : Nat := 32

/-- The constant `static constexpr std::size_t MAX_STORAGE_SIZE = 256;` -/
def MAX_STORAGE_SIZE : Nat := 256

/-- The build-time checks of the converting constructor: the two `static_assert`s
of its body and the `if constexpr` / `static_assert(always_false_v)` of the
`move_storage` lambda. -/
def admissible (T : PayloadType) : Bool :=
  decide (T.sizeof ≤ MAX_STORAGE_SIZE) && decide (ALIGNMENT % T.alignof = 0)
    && T.move_constructible

/-- The object representation of the one-element sequence whose element holds `v`. -/
def wrapped (v : Nat) : Nat := Nat.pair 1 v

/-- The value of the object that `BaseType{x}` builds from an `x` of type `BaseType`
with value `v` (lines 16 and 20 both use braces): `v` itself when the braces copy or
move, the one-element sequence holding `v` when they select an initializer-list
constructor. -/
def list_initialised (T : PayloadType) (v : Nat) : Nat :=
  if T.list_constructor then wrapped v else v

/-- A payload object living in some storage.  `value` is its object representation;
`moved_from` records that the object has been the source of a move construction (or
was move-constructed from such an object), so that `value` is only what it held
before. -/
structure Payload where
  type : PayloadType
  value : Nat
  moved_from : Bool
deriving DecidableEq

/-- The data members of `struct unique_any`.  `pointer` is the `void*` marker,
`type_erased_storage` is the object (if any) whose lifetime is running inside the
byte array, `delete_storage` / `move_storage` are the two function pointers. -/
structure unique_any where
  pointer : Option Addr
  type_erased_storage : Option Payload
  delete_storage : Option PayloadType
  move_storage : Option PayloadType
deriving DecidableEq

/-- Calls of payload constructors and destructors, in program order. -/
inductive Event where
  /-- The call `new(&type_erased_storage) BaseType{std::forward<Type>(object)}` (line 16) -/
  | placed (T : PayloadType) (at_ : Addr)
  /-- The call `reinterpret_cast<BaseType*>(&self)->~BaseType()` (line 17) -/
  | destroyed (T : PayloadType) (at_ : Addr)
  /-- The call `new (&self) BaseType{std::move(*reinterpret_cast<BaseType*>(other))}` (line 20) -/
  | moved (T : PayloadType) (self other : Addr)
  /-- A placement-new reused storage whose previous payload was never destroyed -/
  | abandoned (at_ : Addr)
deriving DecidableEq

/-- Ways an operation can leave defined behaviour. -/
inductive Fault where
  /-- The build rejects the payload type -/
  | rejected
  /-- The address already holds a container -/
  | address_in_use
  /-- No container lives at the address -/
  | no_container
  /-- A null `delete_storage` / `move_storage` was called -/
  | null_handler
  /-- Storage was reinterpreted as a type of which it holds no object -/
  | bad_cast
  /-- The build fails because line 16 cannot initialise the payload from the argument -/
  | ill_formed
  /-- The execution asked for does not exist: no move constructor runs, or the one that
  runs cannot throw -/
  | no_throw
deriving DecidableEq

/-- All containers alive, by address, the payload events so far, and the content of
the byte array of each storage: the object representation last written there, which
stays when the lifetime of the object ends (`none`: never written, indeterminate). -/
structure World where
  mem : Addr → Option unique_any
  trace : List Event
  bytes : Addr → Option Payload

/-- No container has been constructed yet. -/
def World.empty : World := { mem := fun _ => none, trace := [], bytes := fun _ => none }

/-- Overwrite what lives at address `a`. -/
def World.store (w : World) (a : Addr) (c : Option unique_any) : World :=
  { w with mem := fun x => if x = a then c else w.mem x }

/-- Append one event to the trace. -/
def World.log (w : World) (e : Event) : World :=
  { w with trace := w.trace ++ [e] }

/-- Assignment to `this->pointer`. -/
def World.set_pointer (w : World) (a : Addr) (p : Option Addr) : World :=
  match w.mem a with
  | some c => w.store a (some { c with pointer := p })
  | none => w

/-- Write to the bytes of `type_erased_storage` of the container at `a`. -/
def World.set_storage (w : World) (a : Addr) (s : Option Payload) : World :=
  match w.mem a with
  | some c => w.store a (some { c with type_erased_storage := s })
  | none => w

/-- Overwrite the bytes of the storage at `a`. -/
def World.set_bytes (w : World) (a : Addr) (b : Option Payload) : World :=
  { w with bytes := fun x => if x = a then b else w.bytes x }

/-- Put the object `p` into the storage at `a`: it is alive there and the bytes are
its representation. -/
def World.write_storage (w : World) (a : Addr) (p : Payload) : World :=
  (w.set_storage a (some p)).set_bytes a (some p)

/-- Assignment to `this->delete_storage`. -/
def World.set_delete_storage (w : World) (a : Addr) (h : Option PayloadType) : World :=
  match w.mem a with
  | some c => w.store a (some { c with delete_storage := h })
  | none => w

/-- Assignment to `this->move_storage`. -/
def World.set_move_storage (w : World) (a : Addr) (h : Option PayloadType) : World :=
  match w.mem a with
  | some c => w.store a (some { c with move_storage := h })
  | none => w

/-- The lambda stored in `delete_storage` by the converting constructor instantiated
for `T`, applied to the storage at `self`:
`reinterpret_cast<BaseType*>(&self)->~BaseType()`.  The destructor ends the lifetime
of the payload; the bytes stay, and no other storage is touched. -/
def delete_storage_call (T : PayloadType) (self : Addr) (w : World) : Except Fault World :=
  match w.mem self with
  | none => .error .no_container
  | some c =>
    match c.type_erased_storage with
    | none => .error .bad_cast
    | some p =>
      if p.type = T then .ok ((w.set_storage self none).log (.destroyed T self))
      else .error .bad_cast

/-- The lambda stored in `move_storage` by the converting constructor instantiated
for `T`, applied to the storage at `self` and the payload address `other`:
`return new (&self) BaseType{std::move(*reinterpret_cast<BaseType*>(other))}`.
Returns the address of the new object together with the new world. -/
def move_storage_call (T : PayloadType) (self other : Addr) (w : World) :
    Except Fault (Addr × World) :=
  match w.mem other, w.mem self with
  | some src, some dst =>
    match src.type_erased_storage with
    | none => .error .bad_cast
    | some p =>
      if p.type = T then
        let w1 := w.write_storage other { p with moved_from := true }
        let w2 := if dst.type_erased_storage.isSome then w1.log (.abandoned self) else w1
        let w3 := w2.write_storage self
          { type := T, value := list_initialised T p.value, moved_from := p.moved_from }
        .ok (self, w3.log (.moved T self other))
      else .error .bad_cast
  | _, _ => .error .no_container

/-- The same call of the `move_storage` lambda in an execution where the move
constructor of `BaseType` throws: no object comes to exist in `self`, the source
object stays alive in an unspecified (moved-from) state, and the exception leaves the
lambda.  There is no such execution when the move constructor cannot throw. -/
def move_storage_throw (T : PayloadType) (self other : Addr) (w : World) :
    Except Fault World :=
  match w.mem other, w.mem self with
  | some src, some _ =>
    match src.type_erased_storage with
    | none => .error .bad_cast
    | some p =>
      if p.type = T then
        if T.nothrow_move_constructible then .error .no_throw
        else .ok (w.write_storage other { p with moved_from := true })
      else .error .bad_cast
  | _, _ => .error .no_container

/-- Whether the argument of the converting constructor is an lvalue (`Type` is
`BaseType&`, the payload is copied) or an rvalue (`Type` is `BaseType`, the payload
is moved). -/
inductive ValueCategory where
  | lvalue
  | rvalue
deriving DecidableEq

/-- Whether `BaseType{std::forward<Type>(object)}` of line 16 can be compiled: an
rvalue needs a move (or copy) constructor, an lvalue needs a copy constructor. -/
def forwardable (cat : ValueCategory) (T : PayloadType) : Bool :=
  match cat with
  | .rvalue => T.move_constructible
  | .lvalue => T.copy_constructible

/-- The converting constructor `template <typename Type> unique_any(Type&& object)`
(lines 14-28), building a container at the fresh address `this` from an argument of
value category `cat`, decayed type `T` and value `v`, in the execution where the
payload's own constructor returns (if it throws, no container comes to exist and
nothing changes). -/
def construct_from (cat : ValueCategory) (this : Addr) (T : PayloadType) (v : Nat)
    (w : World) : Except Fault World :=
  if admissible T then
    if forwardable cat T then
      match w.mem this with
      | some _ => .error .address_in_use
      | none =>
        .ok (((w.store this (some
          { pointer := some this
            type_erased_storage :=
              some { type := T, value := list_initialised T v, moved_from := false }
            delete_storage := some T
            move_storage := some T })).set_bytes this
          (some { type := T, value := list_initialised T v, moved_from := false })).log
            (.placed T this))
    else .error .ill_formed
  else .error .rejected

/-- The converting constructor called with an rvalue, as in
`unique_any any = NonCopyable{5}` and `any = 23.5f`. -/
def construct (this : Addr) (T : PayloadType) (v : Nat) (w : World) : Except Fault World :=
  construct_from .rvalue this T v w

/-- The member function `void destruct() noexcept` (lines 30-35). -/
def destruct (this : Addr) (w : World) : Except Fault World :=
  match w.mem this with
  | none => .error .no_container
  | some c =>
    let r : Except Fault World :=
      if c.pointer.isSome then
        match c.delete_storage with
        | none => .error .null_handler
        | some T => delete_storage_call T this w
      else .ok w
    match r with
    | .error e => .error e
    | .ok w1 => .ok (w1.set_pointer this none)

/-- A container object none of whose members has been initialised yet. -/
def uninitialised : unique_any :=
  { pointer := none, type_erased_storage := none, delete_storage := none,
    move_storage := none }

/-- The move constructor `unique_any(unique_any&& other)` (lines 40-43), building a
container at the fresh address `this`.  Members are initialised in declaration
order: `pointer`, then `delete_storage`, then `move_storage`. -/
def move_construct (this other : Addr) (w : World) : Except Fault World :=
  match w.mem this, w.mem other with
  | some _, _ => .error .address_in_use
  | none, none => .error .no_container
  | none, some o =>
    let w0 := w.store this (some uninitialised)
    let r : Except Fault World :=
      match o.pointer with
      | none => .ok (w0.set_pointer this none)
      | some p =>
        match o.move_storage with
        | none => .error .null_handler
        | some T =>
          match move_storage_call T this p w0 with
          | .error e => .error e
          | .ok (q, w1) => .ok (w1.set_pointer this (some q))
    match r with
    | .error e => .error e
    | .ok w2 =>
      match w2.mem other with
      | none => .error .no_container
      | some o2 =>
        .ok ((w2.set_delete_storage this o2.delete_storage).set_move_storage this
          o2.move_storage)

/-- The move assignment `unique_any& operator=(unique_any&& other)` (lines 45-56). -/
def move_assign (this other : Addr) (w : World) : Except Fault World :=
  match w.mem this, w.mem other with
  | some c, some o =>
    if o.pointer ≠ c.pointer then
      match destruct this w with
      | .error e => .error e
      | .ok w1 =>
        let w2 := w1.set_pointer this none
        match w2.mem other with
        | none => .error .no_container
        | some o2 =>
          let r : Except Fault World :=
            match o2.pointer with
            | none => .ok w2
            | some p =>
              match o2.move_storage with
              | none => .error .null_handler
              | some T =>
                match move_storage_call T this p w2 with
                | .error e => .error e
                | .ok (q, w3) => .ok (w3.set_pointer this (some q))
          match r with
          | .error e => .error e
          | .ok w4 =>
            match w4.mem other with
            | none => .error .no_container
            | some o4 =>
              .ok ((w4.set_delete_storage this o4.delete_storage).set_move_storage this
                o4.move_storage)
    else .ok w
  | _, _ => .error .no_container

/-- The move constructor (lines 40-43) in an execution where the payload's move
constructor throws inside `other.move_storage`: the exception leaves the
initialisation of `pointer`, so the container at `this` never comes to exist. -/
def move_construct_throw (this other : Addr) (w : World) : Except Fault World :=
  match w.mem this, w.mem other with
  | some _, _ => .error .address_in_use
  | none, none => .error .no_container
  | none, some o =>
    let w0 := w.store this (some uninitialised)
    match o.pointer with
    | none => .error .no_throw
    | some p =>
      match o.move_storage with
      | none => .error .null_handler
      | some T =>
        match move_storage_throw T this p w0 with
        | .error e => .error e
        | .ok w1 => .ok (w1.store this none)

/-- The move assignment (lines 45-56) in an execution where the payload's move
constructor throws inside `other.move_storage` on line 50: lines 47 and 48 have run,
the assignment to `this->pointer` of line 50 and lines 52 and 53 have not, and the
exception leaves `operator=`. -/
def move_assign_throw (this other : Addr) (w : World) : Except Fault World :=
  match w.mem this, w.mem other with
  | some c, some o =>
    if o.pointer ≠ c.pointer then
      match destruct this w with
      | .error e => .error e
      | .ok w1 =>
        let w2 := w1.set_pointer this none
        match w2.mem other with
        | none => .error .no_container
        | some o2 =>
          match o2.pointer with
          | none => .error .no_throw
          | some p =>
            match o2.move_storage with
            | none => .error .null_handler
            | some T => move_storage_throw T this p w2
    else .error .no_throw
  | _, _ => .error .no_container

/-- The destructor `~unique_any() { this->destruct(); }` (line 58); afterwards the
object is gone, its storage is released and its address can be reused. -/
def destroy (this : Addr) (w : World) : Except Fault World :=
  match destruct this w with
  | .error e => .error e
  | .ok w1 => .ok ((w1.store this none).set_bytes this none)

/-- The bytes of a storage read as an object of type `T`. -/
def read_as (T : PayloadType) (b : Option Payload) : Option Payload :=
  b.map fun p => { p with type := T }

/-- A reference `T&` into a storage: the address of the storage and the type it is
read as. -/
structure Ref where
  addr : Addr
  type : PayloadType
deriving DecidableEq

/-- Typed access `template<typename T> T& get()` (lines 60-68):
`*reinterpret_cast<T*>(&type_erased_storage)`.  The call checks nothing and reads
nothing: it returns the reference to the container's own storage, typed `T`, together
with the world it leaves behind. -/
def get (T : PayloadType) (this : Addr) (w : World) : Except Fault (Ref × World) :=
  match w.mem this with
  | none => .error .no_container
  | some _ => .ok ({ addr := this, type := T }, w)

/-- What a reference designates in a world: the bytes of the storage, whatever object
they were written for and whether or not it is still alive, read as the type of the
reference (`none` when the bytes were never written). -/
def Ref.read (r : Ref) (w : World) : Option Payload :=
  read_as r.type (w.bytes r.addr)

/-- The operations a program can apply to containers.  The two `_throw` operations
are the executions of the move constructor and of the move assignment that a throwing
payload move constructor cuts short. -/
inductive Op where
  | construct (this : Addr) (T : PayloadType) (v : Nat)
  | destruct (this : Addr)
  | move_construct (this other : Addr)
  | move_assign (this other : Addr)
  | destroy (this : Addr)
  | construct_lvalue (this : Addr) (T : PayloadType) (v : Nat)
  | move_construct_throw (this other : Addr)
  | move_assign_throw (this other : Addr)
  | get (T : PayloadType) (this : Addr)
deriving DecidableEq

/-- Run one operation. -/
def step (op : Op) (w : World) : Except Fault World :=
  match op with
  | .construct this T v => construct this T v w
  | .destruct this => destruct this w
  | .move_construct this other => move_construct this other w
  | .move_assign this other => move_assign this other w
  | .destroy this => destroy this w
  | .construct_lvalue this T v => construct_from .lvalue this T v w
  | .move_construct_throw this other => move_construct_throw this other w
  | .move_assign_throw this other => move_assign_throw this other w
  | .get T this =>
    match get T this w with
    | .error e => .error e
    | .ok (_, w1) => .ok w1

/-- Run a sequence of operations, stopping at the first fault. -/
def run (ops : List Op) (w : World) : Except Fault World :=
  match ops with
  | [] => .ok w
  | op :: rest =>
    match step op w with
    | .error e => .error e
    | .ok w1 => run rest w1

/-- The states a program can reach: those produced from the empty world by a
sequence of operations none of which faults. -/
def Reachable (w : World) : Prop := ∃ ops, run ops World.empty = .ok w

/-- The world after a run, or the empty world if the run faults. -/
def world_after (ops : List Op) : World :=
  match run ops World.empty with
  | .ok w => w
  | .error _ => World.empty

/-- The payload type `struct NonCopyable { int value; ... }` of `main.cpp`. -/
def NonCopyable : PayloadType :=
  { type_id := 0, sizeof := 4, alignof := 4, move_constructible := true,
    copy_constructible := false }

/-- The payload type `float`. -/
def float : PayloadType :=
  { type_id := 1, sizeof := 4, alignof := 4, move_constructible := true }

/-- The bit pattern of the literal `23.5f`. -/
def float_23_5 : Nat := 0x41BC0000

/-- The test `if (this->pointer)` on the container at `this`. -/
def occupied (this : Addr) (w : World) : Bool :=
  match w.mem this with
  | some c => c.pointer.isSome
  | none => false

/-- The object a completed move construction builds from the payload `p`: line 20
list-initialises it from `std::move` of `p`. -/
def relocated (p : Payload) : Payload :=
  { type := p.type, value := list_initialised p.type p.value, moved_from := p.moved_from }

/-- What a move construction leaves in the storage it moved from. -/
def moved_out (s : Option Payload) : Option Payload :=
  s.map fun p => { p with moved_from := true }

/-- Consistency of the container `c` living at address `a`: both handlers are bound
to one admissible type; the marker is either null with nothing alive in the storage,
or the address of the container's own storage with a payload alive there whose type
is the one the handlers are bound to. -/
def Consistent (a : Addr) (c : unique_any) : Prop :=
  (∃ H, c.delete_storage = some H ∧ c.move_storage = some H ∧ admissible H = true) ∧
  ((c.pointer = none ∧ c.type_erased_storage = none) ∨
   (c.pointer = some a ∧ ∃ p, c.type_erased_storage = some p ∧
      c.delete_storage = some p.type ∧ c.move_storage = some p.type))

/-- Every container of the world is consistent. -/
def Inv (w : World) : Prop := ∀ a c, w.mem a = some c → Consistent a c

/-- The payload destructor calls `destruct` makes on the container `c` living at
`a`: the bound destroyer once if the marker is non-null, nothing otherwise. -/
def destructor_calls (a : Addr) (c : unique_any) : List Event :=
  match c.pointer, c.delete_storage with
  | some _, some T => [.destroyed T a]
  | _, _ => []

/-- The world of `main` just before `any = 23.5f` assigns: `any` lives at address 0
and holds `NonCopyable{5}`, the temporary built from `23.5f` lives at address 1. -/
def main_before_assign : World :=
  world_after [.construct 0 NonCopyable 5, .construct 1 float float_23_5]

/-- The world after `unique_any any = NonCopyable{5}`: one container, at address 0. -/
def holding_noncopyable : World :=
  world_after [.construct 0 NonCopyable 5]

/-- The world after a second container, at address 1, has been move-constructed
from the one that holds `NonCopyable{5}`. -/
def after_move_construct : World :=
  world_after [.construct 0 NonCopyable 5, .move_construct 1 0]

/-- The world of `main` just after `any = 23.5f` has assigned, the temporary at
address 1 not yet destroyed. -/
def main_assigned : World :=
  world_after [.construct 0 NonCopyable 5, .construct 1 float float_23_5,
    .move_assign 0 1]

/-- A world with `NonCopyable{5}` at address 0 and, at address 1, a container that
was built from `23.5f` and then emptied by `destruct()`. -/
def source_destructed : World :=
  world_after [.construct 0 NonCopyable 5, .construct 1 float float_23_5, .destruct 1]

/-- The container at address `a` in the world an operation returned, if it returned
one. -/
def container_at (r : Except Fault World) (a : Addr) : Option unique_any :=
  match r with
  | .ok w => w.mem a
  | .error _ => none

/-- A world with two emptied containers: the one at address 0 was built from
`NonCopyable{5}`, the one at address 1 from `23.5f`, and `destruct()` ran on both. -/
def both_destructed : World :=
  world_after [.construct 0 NonCopyable 5, .construct 1 float float_23_5, .destruct 0,
    .destruct 1]

/-- The world in which the container at address 0, built from `NonCopyable{5}`, has
been assigned from the container at address 1, which was built from `23.5f` and then
emptied by `destruct()`. -/
def emptied_by_assign : World :=
  world_after [.construct 0 NonCopyable 5, .construct 1 float float_23_5, .destruct 1,
    .move_assign 0 1]

/-- Whether the event constructs a payload in the storage at `a`. -/
def Event.builds_at (a : Addr) : Event → Bool
  | .placed _ b => decide (b = a)
  | .moved _ b _ => decide (b = a)
  | _ => false

/-- Whether the event is a payload destructor call on the storage at `a`. -/
def Event.destroys_at (a : Addr) : Event → Bool
  | .destroyed _ b => decide (b = a)
  | _ => false

/-- Whether the event constructs a payload (from a value or by a move). -/
def Event.is_construction : Event → Bool
  | .placed _ _ => true
  | .moved _ _ _ => true
  | _ => false

/-- Whether the event is a payload destructor call. -/
def Event.is_destruction : Event → Bool
  | .destroyed _ _ => true
  | _ => false

/-- The storage an event takes place in. -/
def Event.site : Event → Addr
  | .placed _ a => a
  | .destroyed _ a => a
  | .moved _ a _ => a
  | .abandoned a => a

/-- Number of payload objects constructed so far in the storage at `a`. -/
def built_at (a : Addr) (tr : List Event) : Nat := tr.countP (Event.builds_at a)

/-- Number of payload destructor calls made so far on the storage at `a`. -/
def destroyed_at (a : Addr) (tr : List Event) : Nat := tr.countP (Event.destroys_at a)

/-- Number of payload objects constructed so far. -/
def constructions (tr : List Event) : Nat := tr.countP Event.is_construction

/-- Number of payload destructor calls made so far. -/
def destructions (tr : List Event) : Nat := tr.countP Event.is_destruction

/-- The containers whose marker is non-null, each listed once.  Only an address at
which some event took place can hold an occupied container, so the addresses of the
trace are the candidates. -/
def occupied_containers (w : World) : List Addr :=
  ((w.trace.map Event.site).dedup).filter (fun a => occupied a w)

/-- Per-storage balance: the payloads constructed in a storage are the payloads
destroyed there plus the one still owned when the container is occupied. -/
def Balanced (w : World) : Prop :=
  ∀ a, built_at a w.trace = destroyed_at a w.trace + (if occupied a w = true then 1 else 0)

/-- No placement-new ever landed on storage that still held a live payload. -/
def NoAbandon (w : World) : Prop := ∀ a, Event.abandoned a ∉ w.trace

/-- The world at the end of `main`: `any = 23.5f` has assigned, the temporary has been
destroyed at the end of the statement and `any` at the end of the function. -/
def main_done : World :=
  world_after [.construct 0 NonCopyable 5, .construct 1 float float_23_5,
    .move_assign 0 1, .destroy 1, .destroy 0]

/-- A payload type like `std::vector<std::any>`: it fits the storage and can be moved,
and braces around one of its objects select its initializer-list constructor. -/
def any_vector : PayloadType :=
  { type_id := 5, sizeof := 24, alignof := 8, move_constructible := true,
    list_constructor := true }

/-- A payload type that fits the storage and whose move constructor may throw. -/
def thrower : PayloadType :=
  { type_id := 6, sizeof := 4, alignof := 4, move_constructible := true,
    nothrow_move_constructible := false }

/-- The value `get<T>()` reads at `a`, if the call is defined and the bytes were ever
written. -/
def read_value (T : PayloadType) (a : Addr) (w : World) : Option Nat :=
  match get T a w with
  | .ok (r, w1) => (r.read w1).map Payload.value
  | .error _ => none

/-- Whether an operation returned a world. -/
def completed (r : Except Fault World) : Bool :=
  match r with
  | .ok _ => true
  | .error _ => false

/-- A world with `NonCopyable{5}` at address 0 and, at address 1, a container built
from the value 7 of the type whose braces select an initializer-list constructor. -/
def vector_before_assign : World :=
  world_after [.construct 0 NonCopyable 5, .construct 1 any_vector 7]

/-- A world with `NonCopyable{5}` at address 0 and, at address 1, a container built
from the value 7 of the type whose move constructor may throw. -/
def thrower_before_assign : World :=
  world_after [.construct 0 NonCopyable 5, .construct 1 thrower 7]

/-- The bytes of every storage that holds a live payload are the representation of
that payload. -/
def BytesAgree (w : World) : Prop :=
  ∀ a c p, w.mem a = some c → c.type_erased_storage = some p → w.bytes a = some p

/-! ## Elementary facts about the memory operations -/

@[simp] theorem store_mem (w : World) (a x : Addr) (c : Option unique_any) :
    (w.store a c).mem x = if x = a then c else w.mem x := rfl

@[simp] theorem store_trace (w : World) (a : Addr) (c : Option unique_any) :
    (w.store a c).trace = w.trace := rfl

@[simp] theorem log_mem (w : World) (e : Event) : (w.log e).mem = w.mem := rfl

@[simp] theorem log_trace (w : World) (e : Event) : (w.log e).trace = w.trace ++ [e] := rfl

theorem set_pointer_eq {w : World} {a : Addr} {c : unique_any} (h : w.mem a = some c)
    (p : Option Addr) : w.set_pointer a p = w.store a (some { c with pointer := p }) := by
  simp [World.set_pointer, h]

theorem set_storage_eq {w : World} {a : Addr} {c : unique_any} (h : w.mem a = some c)
    (s : Option Payload) :
    w.set_storage a s = w.store a (some { c with type_erased_storage := s }) := by
  simp [World.set_storage, h]

theorem set_delete_storage_eq {w : World} {a : Addr} {c : unique_any} (h : w.mem a = some c)
    (T : Option PayloadType) :
    w.set_delete_storage a T = w.store a (some { c with delete_storage := T }) := by
  simp [World.set_delete_storage, h]

theorem set_move_storage_eq {w : World} {a : Addr} {c : unique_any} (h : w.mem a = some c)
    (T : Option PayloadType) :
    w.set_move_storage a T = w.store a (some { c with move_storage := T }) := by
  simp [World.set_move_storage, h]

@[simp] theorem store_bytes (w : World) (a : Addr) (c : Option unique_any) :
    (w.store a c).bytes = w.bytes := rfl

@[simp] theorem log_bytes (w : World) (e : Event) : (w.log e).bytes = w.bytes := rfl

@[simp] theorem set_bytes_mem (w : World) (a : Addr) (b : Option Payload) :
    (w.set_bytes a b).mem = w.mem := rfl

@[simp] theorem set_bytes_trace (w : World) (a : Addr) (b : Option Payload) :
    (w.set_bytes a b).trace = w.trace := rfl

@[simp] theorem set_bytes_bytes (w : World) (a x : Addr) (b : Option Payload) :
    (w.set_bytes a b).bytes x = if x = a then b else w.bytes x := rfl

@[simp] theorem relocated_type (p : Payload) : (relocated p).type = p.type := rfl

theorem relocated_eq {p : Payload} (h : p.type.list_constructor = false) :
    relocated p = p := by
  cases p
  simp only [relocated, list_initialised, Payload.mk.injEq, true_and, and_true]
  simp only at h
  simp [h]

theorem world_ext {w1 w2 : World} (hm : ∀ x, w1.mem x = w2.mem x) (ht : w1.trace = w2.trace)
    (hb : ∀ x, w1.bytes x = w2.bytes x) : w1 = w2 := by
  cases w1; cases w2
  simp only [World.mk.injEq]
  exact ⟨funext hm, ht, funext hb⟩

/-! ## destruct -/

/-- On an empty container `destruct` calls nothing and only rewrites the marker. -/
theorem destruct_of_empty {w : World} {a : Addr} {c : unique_any} (h : w.mem a = some c)
    (hp : c.pointer = none) :
    destruct a w = .ok (w.store a (some { c with pointer := none })) := by
  simp [destruct, h, hp, set_pointer_eq h]

/-- On an occupied container whose destroyer is bound to the type of the live payload,
`destruct` runs that destructor once and clears the marker. -/
theorem destruct_of_occupied {w : World} {a q : Addr} {c : unique_any} {p : Payload}
    (h : w.mem a = some c) (hp : c.pointer = some q) (hs : c.type_erased_storage = some p)
    (hd : c.delete_storage = some p.type) :
    destruct a w = .ok ((w.store a (some
      { c with pointer := none, type_erased_storage := none })).log (.destroyed p.type a)) := by
  simp [destruct, h, hp, hd, delete_storage_call, hs, set_storage_eq h, World.set_pointer,
    World.log, World.store]
  funext x
  split <;> rfl

/-! ## The mover -/

/-- The mover bound to the type of the payload at `other`, writing into the dead
storage of a different container `self`. -/
theorem move_storage_call_ok {w : World} {self other : Addr} {src dst : unique_any}
    {p : Payload} (hne : self ≠ other) (ho : w.mem other = some src)
    (hs : w.mem self = some dst) (hp : src.type_erased_storage = some p)
    (hd : dst.type_erased_storage = none) :
    move_storage_call p.type self other w = .ok (self,
      (((((w.store other (some { src with type_erased_storage := moved_out (some p) })
        ).set_bytes other (moved_out (some p))).store
        self (some { dst with type_erased_storage := some (relocated p) })).set_bytes
        self (some (relocated p))).log (.moved p.type self other))) := by
  have h1 : ((w.store other (some { src with
      type_erased_storage := some { p with moved_from := true } })).set_bytes other
        (some { p with moved_from := true })).mem self = some dst := by
    simp [hne, hs]
  simp [move_storage_call, World.write_storage, ho, hs, hp, hd, set_storage_eq ho,
    set_storage_eq h1, moved_out, relocated]

/-! ## Move construction -/

/-- Move construction from an empty source. -/
theorem move_construct_of_empty {w : World} {this other : Addr} {o : unique_any}
    (hf : w.mem this = none) (ho : w.mem other = some o) (hp : o.pointer = none) :
    ∃ w1, move_construct this other w = .ok w1 ∧
      (∀ x, w1.mem x = if x = this then some
          { pointer := none, type_erased_storage := none,
            delete_storage := o.delete_storage, move_storage := o.move_storage }
        else w.mem x) ∧
      w1.trace = w.trace := by
  have hne : other ≠ this := by rintro rfl; simp [hf] at ho
  simp [move_construct, hf, ho, hp, World.set_pointer, hne, World.set_delete_storage,
      World.set_move_storage, uninitialised]
  intro x
  by_cases hx : x = this <;> simp [hx]

/-- Move construction from an occupied, consistent source, with the bytes written. -/
theorem move_construct_of_occupied_full {w : World} {this other : Addr} {o : unique_any}
    {p : Payload} (hf : w.mem this = none) (ho : w.mem other = some o)
    (hp : o.pointer = some other) (hs : o.type_erased_storage = some p)
    (hm : o.move_storage = some p.type) :
    ∃ w1, move_construct this other w = .ok w1 ∧
      (∀ x, w1.mem x = if x = this then some
          { pointer := some this, type_erased_storage := some (relocated p),
            delete_storage := o.delete_storage, move_storage := o.move_storage }
        else if x = other then some { o with type_erased_storage := moved_out (some p) }
        else w.mem x) ∧
      w1.trace = w.trace ++ [.moved p.type this other] ∧
      w1.bytes this = some (relocated p) := by
  have hne : other ≠ this := by rintro rfl; simp [hf] at ho
  have h0 : (w.store this (some uninitialised)).mem other = some o := by
    simp [hne, ho]
  have h1 : (w.store this (some uninitialised)).mem this = some uninitialised := by
    simp
  have hcall := move_storage_call_ok (Ne.symm hne) h0 h1 hs rfl
  simp [move_construct, hf, ho, hp, hm, hcall, World.set_pointer, hne,
      World.set_delete_storage, World.set_move_storage]
  intro x
  by_cases hx : x = this
  · simp [hx, uninitialised]
  · by_cases hy : x = other <;> simp [hx, hy, hne]

/-- Move construction from an occupied, consistent source. -/
theorem move_construct_of_occupied {w : World} {this other : Addr} {o : unique_any}
    {p : Payload} (hf : w.mem this = none) (ho : w.mem other = some o)
    (hp : o.pointer = some other) (hs : o.type_erased_storage = some p)
    (hm : o.move_storage = some p.type) :
    ∃ w1, move_construct this other w = .ok w1 ∧
      (∀ x, w1.mem x = if x = this then some
          { pointer := some this, type_erased_storage := some (relocated p),
            delete_storage := o.delete_storage, move_storage := o.move_storage }
        else if x = other then some { o with type_erased_storage := moved_out (some p) }
        else w.mem x) ∧
      w1.trace = w.trace ++ [.moved p.type this other] := by
  obtain ⟨w1, h, hmem, ht, -⟩ := move_construct_of_occupied_full hf ho hp hs hm
  exact ⟨w1, h, hmem, ht⟩

/-! ## destruct on a consistent container -/

/-- On a consistent container `destruct` succeeds; it leaves the container empty,
touches no other container, and logs exactly the destructor calls of
`destructor_calls`. -/
theorem destruct_spec {w : World} {a : Addr} {c : unique_any} (h : w.mem a = some c)
    (hc : Consistent a c) :
    ∃ w1, destruct a w = .ok w1 ∧
      (∀ x, w1.mem x = if x = a then some
          { c with pointer := none, type_erased_storage := none } else w.mem x) ∧
      w1.trace = w.trace ++ destructor_calls a c := by
  obtain ⟨-, hcase⟩ := hc
  rcases hcase with ⟨hp, hs⟩ | ⟨hp, p, hs, hd, -⟩
  · refine ⟨_, destruct_of_empty h hp, ?_, ?_⟩
    · intro x
      by_cases hx : x = a
      · subst hx; simp [← hs]
      · simp [hx]
    · simp [destructor_calls, hp]
  · refine ⟨_, destruct_of_occupied h hp hs hd, ?_, ?_⟩
    · intro x; simp
    · simp [destructor_calls, hp, hd]

/-! ## Move assignment -/

/-- When the two markers compare equal the assignment does nothing at all. -/
theorem move_assign_of_same_pointer {w : World} {this other : Addr} {c o : unique_any}
    (hc : w.mem this = some c) (ho : w.mem other = some o) (hp : o.pointer = c.pointer) :
    move_assign this other w = .ok w := by
  simp [move_assign, hc, ho, hp]

/-- Move assignment from an empty source into an occupied, consistent destination. -/
theorem move_assign_of_empty {w : World} {this other : Addr} {c o : unique_any}
    (hne : this ≠ other) (hc : w.mem this = some c) (ho : w.mem other = some o)
    (hcc : Consistent this c) (hcp : c.pointer ≠ none) (hp : o.pointer = none) :
    ∃ w1, move_assign this other w = .ok w1 ∧
      (∀ x, w1.mem x = if x = this then some
          { pointer := none, type_erased_storage := none,
            delete_storage := o.delete_storage, move_storage := o.move_storage }
        else w.mem x) ∧
      w1.trace = w.trace ++ destructor_calls this c := by
  obtain ⟨w1, hd, hm, ht⟩ := destruct_spec hc hcc
  have hguard : ¬ (none = c.pointer) := fun h => hcp h.symm
  have h1 : w1.mem this = some { c with pointer := none, type_erased_storage := none } := by
    simp [hm]
  have h2 : w1.mem other = some o := by simp [hm, Ne.symm hne, ho]
  simp [move_assign, hc, ho, hp, hguard, hd, World.set_pointer, h1, h2, Ne.symm hne,
    World.set_delete_storage, World.set_move_storage, ht]
  intro x
  by_cases hx : x = this
  · simp [hx]
  · simp [hx, hm]

/-- Move assignment from an occupied, consistent source into a different consistent
destination, with the bytes written. -/
theorem move_assign_of_occupied_full {w : World} {this other : Addr} {c o : unique_any}
    {p : Payload} (hne : this ≠ other) (hc : w.mem this = some c)
    (ho : w.mem other = some o) (hcc : Consistent this c)
    (hp : o.pointer = some other) (hs : o.type_erased_storage = some p)
    (hmv : o.move_storage = some p.type) :
    ∃ w1, move_assign this other w = .ok w1 ∧
      (∀ x, w1.mem x = if x = this then some
          { pointer := some this, type_erased_storage := some (relocated p),
            delete_storage := o.delete_storage, move_storage := o.move_storage }
        else if x = other then some { o with type_erased_storage := moved_out (some p) }
        else w.mem x) ∧
      w1.trace = w.trace ++ destructor_calls this c ++ [.moved p.type this other] ∧
      w1.bytes this = some (relocated p) := by
  obtain ⟨w1, hd, hm, ht⟩ := destruct_spec hc hcc
  have hguard : ¬ (some other = c.pointer) := by
    intro h
    rcases hcc.2 with ⟨h0, -⟩ | ⟨h0, -⟩
    · simp [h0] at h
    · rw [h0] at h; exact hne (Option.some.inj h).symm
  have h1 : w1.mem this = some { c with pointer := none, type_erased_storage := none } := by
    simp [hm]
  have h2 : w1.mem other = some o := by simp [hm, Ne.symm hne, ho]
  have h3 : (w1.store this (some
      { c with pointer := none, type_erased_storage := none })).mem other = some o := by
    simp [Ne.symm hne, h2]
  have h4 : (w1.store this (some
      { c with pointer := none, type_erased_storage := none })).mem this =
        some { c with pointer := none, type_erased_storage := none } := by
    simp
  have hcall := move_storage_call_ok hne h3 h4 hs rfl
  simp [move_assign, hc, ho, hp, hguard, hd, World.set_pointer, h1, h2, Ne.symm hne,
    World.set_delete_storage, World.set_move_storage, ht, hmv, hcall]
  intro x
  by_cases hx : x = this
  · simp [hx]
  · by_cases hy : x = other
    · subst hy; simp [Ne.symm hne]
    · simp [hx, hy, hm]

/-- Move assignment from an occupied, consistent source into a different consistent
destination. -/
theorem move_assign_of_occupied {w : World} {this other : Addr} {c o : unique_any}
    {p : Payload} (hne : this ≠ other) (hc : w.mem this = some c)
    (ho : w.mem other = some o) (hcc : Consistent this c)
    (hp : o.pointer = some other) (hs : o.type_erased_storage = some p)
    (hmv : o.move_storage = some p.type) :
    ∃ w1, move_assign this other w = .ok w1 ∧
      (∀ x, w1.mem x = if x = this then some
          { pointer := some this, type_erased_storage := some (relocated p),
            delete_storage := o.delete_storage, move_storage := o.move_storage }
        else if x = other then some { o with type_erased_storage := moved_out (some p) }
        else w.mem x) ∧
      w1.trace = w.trace ++ destructor_calls this c ++ [.moved p.type this other] := by
  obtain ⟨w1, h, hmem, ht, -⟩ := move_assign_of_occupied_full hne hc ho hcc hp hs hmv
  exact ⟨w1, h, hmem, ht⟩

/-! ## Executions cut short by a throwing payload move constructor -/

/-- The mover bound to the type of the payload at `other`, when that type's move
constructor may throw and does. -/
theorem move_storage_throw_ok {w : World} {self other : Addr} {src dst : unique_any}
    {p : Payload} (ho : w.mem other = some src) (hs : w.mem self = some dst)
    (hp : src.type_erased_storage = some p)
    (hth : p.type.nothrow_move_constructible = false) :
    move_storage_throw p.type self other w = .ok
      ((w.store other (some { src with type_erased_storage := moved_out (some p) })
        ).set_bytes other (moved_out (some p))) := by
  simp [move_storage_throw, World.write_storage, ho, hs, hp, hth, set_storage_eq ho,
    moved_out]

/-- A move constructor that cannot throw does not. -/
theorem move_storage_throw_nothrow {w : World} {self other : Addr} {src dst : unique_any}
    {p : Payload} (ho : w.mem other = some src) (hs : w.mem self = some dst)
    (hp : src.type_erased_storage = some p)
    (hth : p.type.nothrow_move_constructible = true) :
    move_storage_throw p.type self other w = .error .no_throw := by
  simp [move_storage_throw, ho, hs, hp, hth]

theorem move_construct_throw_of_empty {w : World} {this other : Addr} {o : unique_any}
    (hf : w.mem this = none) (ho : w.mem other = some o) (hp : o.pointer = none) :
    move_construct_throw this other w = .error .no_throw := by
  simp [move_construct_throw, hf, ho, hp]

theorem move_construct_throw_of_nothrow {w : World} {this other : Addr} {o : unique_any}
    {p : Payload} (hf : w.mem this = none) (ho : w.mem other = some o)
    (hp : o.pointer = some other) (hs : o.type_erased_storage = some p)
    (hm : o.move_storage = some p.type)
    (hth : p.type.nothrow_move_constructible = true) :
    move_construct_throw this other w = .error .no_throw := by
  have hne : other ≠ this := by rintro rfl; simp [hf] at ho
  have h0 : (w.store this (some uninitialised)).mem other = some o := by
    simp [hne, ho]
  have h1 : (w.store this (some uninitialised)).mem this = some uninitialised := by
    simp
  simp [move_construct_throw, hf, ho, hp, hm, move_storage_throw_nothrow h0 h1 hs hth]

/-- Move construction from an occupied, consistent source whose payload's move
constructor throws: no container comes to exist, the source keeps everything but has
a moved-from payload, and no payload is constructed or destroyed. -/
theorem move_construct_throw_spec {w : World} {this other : Addr} {o : unique_any}
    {p : Payload} (hf : w.mem this = none) (ho : w.mem other = some o)
    (hp : o.pointer = some other) (hs : o.type_erased_storage = some p)
    (hm : o.move_storage = some p.type)
    (hth : p.type.nothrow_move_constructible = false) :
    ∃ w1, move_construct_throw this other w = .ok w1 ∧
      (∀ x, w1.mem x =
        if x = other then some { o with type_erased_storage := moved_out (some p) }
        else w.mem x) ∧
      w1.trace = w.trace := by
  have hne : other ≠ this := by rintro rfl; simp [hf] at ho
  have h0 : (w.store this (some uninitialised)).mem other = some o := by
    simp [hne, ho]
  have h1 : (w.store this (some uninitialised)).mem this = some uninitialised := by
    simp
  simp [move_construct_throw, hf, ho, hp, hm, move_storage_throw_ok h0 h1 hs hth]
  intro x
  by_cases hx : x = this
  · subst hx; simp [Ne.symm hne, hf]
  · by_cases hy : x = other <;> simp [hx, hy, hne]

theorem move_assign_throw_of_same_pointer {w : World} {this other : Addr}
    {c o : unique_any} (hc : w.mem this = some c) (ho : w.mem other = some o)
    (hp : o.pointer = c.pointer) :
    move_assign_throw this other w = .error .no_throw := by
  simp [move_assign_throw, hc, ho, hp]

theorem move_assign_throw_of_empty {w : World} {this other : Addr} {c o : unique_any}
    (hne : this ≠ other) (hc : w.mem this = some c) (ho : w.mem other = some o)
    (hcc : Consistent this c) (hcp : c.pointer ≠ none) (hp : o.pointer = none) :
    move_assign_throw this other w = .error .no_throw := by
  obtain ⟨w1, hd, hm, -⟩ := destruct_spec hc hcc
  have hguard : ¬ (none = c.pointer) := fun h => hcp h.symm
  have h1 : w1.mem this = some { c with pointer := none, type_erased_storage := none } := by
    simp [hm]
  have h2 : w1.mem other = some o := by simp [hm, Ne.symm hne, ho]
  simp [move_assign_throw, hc, ho, hp, hguard, hd, World.set_pointer, h1, h2, Ne.symm hne]

theorem move_assign_throw_of_nothrow {w : World} {this other : Addr} {c o : unique_any}
    {p : Payload} (hne : this ≠ other) (hc : w.mem this = some c)
    (ho : w.mem other = some o) (hcc : Consistent this c)
    (hp : o.pointer = some other) (hs : o.type_erased_storage = some p)
    (hmv : o.move_storage = some p.type)
    (hth : p.type.nothrow_move_constructible = true) :
    move_assign_throw this other w = .error .no_throw := by
  obtain ⟨w1, hd, hm, -⟩ := destruct_spec hc hcc
  have hguard : ¬ (some other = c.pointer) := by
    intro h
    rcases hcc.2 with ⟨h0, -⟩ | ⟨h0, -⟩
    · simp [h0] at h
    · rw [h0] at h; exact hne (Option.some.inj h).symm
  have h1 : w1.mem this = some { c with pointer := none, type_erased_storage := none } := by
    simp [hm]
  have h2 : w1.mem other = some o := by simp [hm, Ne.symm hne, ho]
  have h3 : (w1.store this (some
      { c with pointer := none, type_erased_storage := none })).mem other = some o := by
    simp [Ne.symm hne, h2]
  have h4 : (w1.store this (some
      { c with pointer := none, type_erased_storage := none })).mem this =
        some { c with pointer := none, type_erased_storage := none } := by
    simp
  simp [move_assign_throw, hc, ho, hp, hguard, hd, World.set_pointer, h1, h2, Ne.symm hne,
    hmv, move_storage_throw_nothrow h3 h4 hs hth]

/-- Move assignment from an occupied, consistent source whose payload's move
constructor throws on line 50: the destination has been emptied and keeps its own
handlers, the source keeps everything but has a moved-from payload, and the only
payload calls are the destructor calls of `destruct`. -/
theorem move_assign_throw_spec {w : World} {this other : Addr} {c o : unique_any}
    {p : Payload} (hne : this ≠ other) (hc : w.mem this = some c)
    (ho : w.mem other = some o) (hcc : Consistent this c)
    (hp : o.pointer = some other) (hs : o.type_erased_storage = some p)
    (hmv : o.move_storage = some p.type)
    (hth : p.type.nothrow_move_constructible = false) :
    ∃ w1, move_assign_throw this other w = .ok w1 ∧
      (∀ x, w1.mem x = if x = this then some
          { c with pointer := none, type_erased_storage := none }
        else if x = other then some { o with type_erased_storage := moved_out (some p) }
        else w.mem x) ∧
      w1.trace = w.trace ++ destructor_calls this c := by
  obtain ⟨w1, hd, hm, ht⟩ := destruct_spec hc hcc
  have hguard : ¬ (some other = c.pointer) := by
    intro h
    rcases hcc.2 with ⟨h0, -⟩ | ⟨h0, -⟩
    · simp [h0] at h
    · rw [h0] at h; exact hne (Option.some.inj h).symm
  have h1 : w1.mem this = some { c with pointer := none, type_erased_storage := none } := by
    simp [hm]
  have h2 : w1.mem other = some o := by simp [hm, Ne.symm hne, ho]
  have h3 : (w1.store this (some
      { c with pointer := none, type_erased_storage := none })).mem other = some o := by
    simp [Ne.symm hne, h2]
  have h4 : (w1.store this (some
      { c with pointer := none, type_erased_storage := none })).mem this =
        some { c with pointer := none, type_erased_storage := none } := by
    simp
  simp [move_assign_throw, hc, ho, hp, hguard, hd, World.set_pointer, h1, h2, Ne.symm hne,
    hmv, move_storage_throw_ok h3 h4 hs hth, ht]
  intro x
  by_cases hx : x = this
  · simp [hx, hne]
  · by_cases hy : x = other
    · subst hy; simp [hx]
    · simp [hx, hy, hm]

/-! ## The invariant -/

theorem consistent_emptied {a b : Addr} {c : unique_any} (h : Consistent a c) :
    Consistent b { pointer := none, type_erased_storage := none,
                   delete_storage := c.delete_storage, move_storage := c.move_storage } :=
  ⟨h.1, Or.inl ⟨rfl, rfl⟩⟩

theorem consistent_moved_out {a : Addr} {o : unique_any} {p : Payload} (h : Consistent a o)
    (hp : o.pointer = some a) (hs : o.type_erased_storage = some p) :
    Consistent a { o with type_erased_storage := moved_out (some p) } := by
  refine ⟨h.1, Or.inr ⟨hp, _, rfl, ?_⟩⟩
  rcases h.2 with ⟨h0, -⟩ | ⟨-, q, hq, hd, hm⟩
  · simp [hp] at h0
  · rw [hs] at hq
    cases hq
    exact ⟨hd, hm⟩

theorem consistent_received {a b : Addr} {o : unique_any} {p : Payload} (h : Consistent a o)
    (hp : o.pointer = some a) (hs : o.type_erased_storage = some p) :
    Consistent b { pointer := some b, type_erased_storage := some (relocated p),
                   delete_storage := o.delete_storage, move_storage := o.move_storage } := by
  refine ⟨h.1, Or.inr ⟨rfl, relocated p, rfl, ?_⟩⟩
  rcases h.2 with ⟨h0, -⟩ | ⟨-, q, hq, hd, hm⟩
  · simp [hp] at h0
  · rw [hs] at hq
    cases hq
    exact ⟨hd, hm⟩

/-- In a consistent container a non-null marker is the container's own address and
comes with a live payload to whose type both handlers are bound. -/
theorem consistent_occupied {a : Addr} {c : unique_any} (h : Consistent a c)
    (hp : c.pointer ≠ none) :
    c.pointer = some a ∧ ∃ p, c.type_erased_storage = some p ∧
      c.delete_storage = some p.type ∧ c.move_storage = some p.type := by
  rcases h.2 with ⟨h0, -⟩ | h1
  · exact absurd h0 hp
  · exact h1

theorem inv_empty_storage {a : Addr} {c : unique_any} (hc : Consistent a c)
    (hp : c.pointer = none) : c.type_erased_storage = none := by
  rcases hc.2 with ⟨-, h⟩ | ⟨h, -⟩
  · exact h
  · simp [hp] at h

theorem inv_empty : Inv World.empty := by
  intro a c h
  simp [World.empty] at h

/-- What a successful converting construction requires and does. -/
theorem construct_from_spec {cat : ValueCategory} {this : Addr} {T : PayloadType} {v : Nat}
    {w w1 : World} (hs : construct_from cat this T v w = .ok w1) :
    admissible T = true ∧ forwardable cat T = true ∧ w.mem this = none ∧
      (∀ x, w1.mem x = if x = this then some
          { pointer := some this
            type_erased_storage :=
              some { type := T, value := list_initialised T v, moved_from := false }
            delete_storage := some T
            move_storage := some T }
        else w.mem x) ∧
      w1.trace = w.trace ++ [.placed T this] ∧
      w1.bytes this = some { type := T, value := list_initialised T v, moved_from := false } := by
  unfold construct_from at hs
  split at hs
  · next hadm =>
    split at hs
    · next hfw =>
      split at hs
      · cases hs
      · next hf =>
        cases hs
        refine ⟨hadm, hfw, hf, ?_, ?_, ?_⟩
        · intro x; simp
        · simp
        · simp
    · cases hs
  · cases hs

theorem construct_preserves_inv {cat : ValueCategory} {w w1 : World} {this : Addr}
    {T : PayloadType} {v : Nat}
    (hi : Inv w) (hs : construct_from cat this T v w = .ok w1) : Inv w1 := by
  obtain ⟨hadm, -, -, hm, -, -⟩ := construct_from_spec hs
  intro x c hx
  rw [hm] at hx
  split at hx
  · next hxa =>
    cases hx
    subst hxa
    exact ⟨⟨T, rfl, rfl, hadm⟩, Or.inr ⟨rfl, _, rfl, rfl, rfl⟩⟩
  · exact hi x c hx

theorem destruct_preserves_inv {w w1 : World} {this : Addr}
    (hi : Inv w) (hs : destruct this w = .ok w1) : Inv w1 := by
  cases hc : w.mem this with
  | none => simp [destruct, hc] at hs
  | some c =>
    obtain ⟨w2, hd, hm, -⟩ := destruct_spec hc (hi this c hc)
    rw [hd] at hs
    cases hs
    intro x cx hx
    rw [hm] at hx
    split at hx
    · next hxa =>
      cases hx
      exact consistent_emptied (hi this c hc)
    · exact hi x cx hx

theorem destroy_preserves_inv {w w1 : World} {this : Addr}
    (hi : Inv w) (hs : destroy this w = .ok w1) : Inv w1 := by
  unfold destroy at hs
  split at hs
  · cases hs
  · next w2 hd =>
    cases hs
    have hi2 := destruct_preserves_inv hi hd
    intro x cx hx
    simp only [set_bytes_mem, store_mem] at hx
    split at hx
    · cases hx
    · exact hi2 x cx hx

theorem move_construct_preserves_inv {w w1 : World} {this other : Addr}
    (hi : Inv w) (hs : move_construct this other w = .ok w1) : Inv w1 := by
  cases hf : w.mem this with
  | some c => simp [move_construct, hf] at hs
  | none =>
    cases ho : w.mem other with
    | none => simp [move_construct, hf, ho] at hs
    | some o =>
      have hoc := hi other o ho
      by_cases hp : o.pointer = none
      · obtain ⟨w2, hd, hm, -⟩ := move_construct_of_empty hf ho hp
        rw [hd] at hs
        cases hs
        intro x cx hx
        rw [hm] at hx
        split at hx
        · cases hx
          exact consistent_emptied hoc
        · exact hi x cx hx
      · obtain ⟨hpo, p, hps, -, hpm⟩ := consistent_occupied hoc hp
        obtain ⟨w2, hd, hm, -⟩ := move_construct_of_occupied hf ho hpo hps hpm
        rw [hd] at hs
        cases hs
        intro x cx hx
        rw [hm] at hx
        split at hx
        · next hxt =>
          cases hx
          subst hxt
          exact consistent_received hoc hpo hps
        · split at hx
          · next hxo =>
            cases hx
            subst hxo
            exact consistent_moved_out hoc hpo hps
          · exact hi x cx hx

theorem move_assign_preserves_inv {w w1 : World} {this other : Addr}
    (hi : Inv w) (hs : move_assign this other w = .ok w1) : Inv w1 := by
  cases hc : w.mem this with
  | none => simp [move_assign, hc] at hs
  | some c =>
    cases ho : w.mem other with
    | none => simp [move_assign, hc, ho] at hs
    | some o =>
      have hcc := hi this c hc
      have hoc := hi other o ho
      by_cases hsame : o.pointer = c.pointer
      · rw [move_assign_of_same_pointer hc ho hsame] at hs
        cases hs
        exact hi
      · have hne : this ≠ other := by
          rintro rfl
          rw [hc] at ho
          cases ho
          exact hsame rfl
        by_cases hp : o.pointer = none
        · have hcp : c.pointer ≠ none := fun h => hsame (by rw [hp, h])
          obtain ⟨w2, hd, hm, -⟩ := move_assign_of_empty hne hc ho hcc hcp hp
          rw [hd] at hs
          cases hs
          intro x cx hx
          rw [hm] at hx
          split at hx
          · cases hx
            exact consistent_emptied hoc
          · exact hi x cx hx
        · obtain ⟨hpo, p, hps, -, hpm⟩ := consistent_occupied hoc hp
          obtain ⟨w2, hd, hm, -⟩ := move_assign_of_occupied hne hc ho hcc hpo hps hpm
          rw [hd] at hs
          cases hs
          intro x cx hx
          rw [hm] at hx
          split at hx
          · next hxt =>
            cases hx
            subst hxt
            exact consistent_received hoc hpo hps
          · split at hx
            · next hxo =>
              cases hx
              subst hxo
              exact consistent_moved_out hoc hpo hps
            · exact hi x cx hx

/-- The ways a throwing execution of the move constructor can succeed: the source is
occupied by a payload whose move constructor may throw. -/
theorem move_construct_throw_inv {w w1 : World} {this other : Addr} (hi : Inv w)
    (hs : move_construct_throw this other w = .ok w1) :
    ∃ o p, w.mem this = none ∧ w.mem other = some o ∧ o.pointer = some other ∧
      o.type_erased_storage = some p ∧ o.move_storage = some p.type ∧
      p.type.nothrow_move_constructible = false := by
  cases hf : w.mem this with
  | some c => simp [move_construct_throw, hf] at hs
  | none =>
    cases ho : w.mem other with
    | none => simp [move_construct_throw, hf, ho] at hs
    | some o =>
      by_cases hp : o.pointer = none
      · rw [move_construct_throw_of_empty hf ho hp] at hs
        cases hs
      · obtain ⟨hpo, p, hps, -, hpm⟩ := consistent_occupied (hi other o ho) hp
        by_cases hth : p.type.nothrow_move_constructible = true
        · rw [move_construct_throw_of_nothrow hf ho hpo hps hpm hth] at hs
          cases hs
        · exact ⟨o, p, rfl, rfl, hpo, hps, hpm, by simpa using hth⟩

/-- The ways a throwing execution of the move assignment can succeed: the markers
differ and the source is occupied by a payload whose move constructor may throw. -/
theorem move_assign_throw_inv {w w1 : World} {this other : Addr} (hi : Inv w)
    (hs : move_assign_throw this other w = .ok w1) :
    ∃ c o p, this ≠ other ∧ w.mem this = some c ∧ w.mem other = some o ∧
      o.pointer = some other ∧ o.type_erased_storage = some p ∧
      o.move_storage = some p.type ∧ p.type.nothrow_move_constructible = false := by
  cases hc : w.mem this with
  | none => simp [move_assign_throw, hc] at hs
  | some c =>
    cases ho : w.mem other with
    | none => simp [move_assign_throw, hc, ho] at hs
    | some o =>
      have hcc := hi this c hc
      by_cases hsame : o.pointer = c.pointer
      · rw [move_assign_throw_of_same_pointer hc ho hsame] at hs
        cases hs
      · have hne : this ≠ other := by
          rintro rfl
          rw [hc] at ho
          cases ho
          exact hsame rfl
        by_cases hp : o.pointer = none
        · have hcp : c.pointer ≠ none := fun h => hsame (by rw [hp, h])
          rw [move_assign_throw_of_empty hne hc ho hcc hcp hp] at hs
          cases hs
        · obtain ⟨hpo, p, hps, -, hpm⟩ := consistent_occupied (hi other o ho) hp
          by_cases hth : p.type.nothrow_move_constructible = true
          · rw [move_assign_throw_of_nothrow hne hc ho hcc hpo hps hpm hth] at hs
            cases hs
          · exact ⟨c, o, p, hne, rfl, rfl, hpo, hps, hpm, by simpa using hth⟩

theorem move_construct_throw_preserves_inv {w w1 : World} {this other : Addr}
    (hi : Inv w) (hs : move_construct_throw this other w = .ok w1) : Inv w1 := by
  obtain ⟨o, p, hf, ho, hpo, hps, hpm, hth⟩ := move_construct_throw_inv hi hs
  obtain ⟨w2, hd, hm, -⟩ := move_construct_throw_spec hf ho hpo hps hpm hth
  rw [hd] at hs
  cases hs
  intro x cx hx
  rw [hm] at hx
  split at hx
  · next hxo =>
    cases hx
    subst hxo
    exact consistent_moved_out (hi x o ho) hpo hps
  · exact hi x cx hx

theorem move_assign_throw_preserves_inv {w w1 : World} {this other : Addr}
    (hi : Inv w) (hs : move_assign_throw this other w = .ok w1) : Inv w1 := by
  obtain ⟨c, o, p, hne, hc, ho, hpo, hps, hpm, hth⟩ := move_assign_throw_inv hi hs
  obtain ⟨w2, hd, hm, -⟩ := move_assign_throw_spec hne hc ho (hi this c hc) hpo hps hpm hth
  rw [hd] at hs
  cases hs
  intro x cx hx
  rw [hm] at hx
  split at hx
  · cases hx
    exact consistent_emptied (hi this c hc)
  · split at hx
    · next hxo =>
      cases hx
      subst hxo
      exact consistent_moved_out (hi x o ho) hpo hps
    · exact hi x cx hx

/-- Typed access leaves the world as it is. -/
theorem step_get {T : PayloadType} {a : Addr} {w w1 : World}
    (hs : step (.get T a) w = .ok w1) : w1 = w := by
  simp only [step, get] at hs
  cases hc : w.mem a with
  | none => simp [hc] at hs
  | some c =>
    simp [hc] at hs
    exact hs.symm

theorem step_preserves_inv {op : Op} {w w1 : World} (hi : Inv w) (hs : step op w = .ok w1) :
    Inv w1 := by
  cases op with
  | construct this T v => exact construct_preserves_inv hi hs
  | destruct this => exact destruct_preserves_inv hi hs
  | move_construct this other => exact move_construct_preserves_inv hi hs
  | move_assign this other => exact move_assign_preserves_inv hi hs
  | destroy this => exact destroy_preserves_inv hi hs
  | construct_lvalue this T v => exact construct_preserves_inv hi hs
  | move_construct_throw this other => exact move_construct_throw_preserves_inv hi hs
  | move_assign_throw this other => exact move_assign_throw_preserves_inv hi hs
  | get T this =>
    rw [step_get hs]
    exact hi

theorem run_preserves_inv {ops : List Op} {w w1 : World} (hi : Inv w)
    (hs : run ops w = .ok w1) : Inv w1 := by
  induction ops generalizing w with
  | nil =>
    simp only [run] at hs
    cases hs
    exact hi
  | cons op rest ih =>
    simp only [run] at hs
    split at hs
    · cases hs
    · next w2 h2 => exact ih (step_preserves_inv hi h2) hs

/-- Every container of a reachable world is consistent. -/
theorem reachable_inv {w : World} (h : Reachable w) : Inv w := by
  obtain ⟨ops, hops⟩ := h
  exact run_preserves_inv inv_empty hops

theorem get_of_bytes {w : World} {a : Addr} {c : unique_any} {p : Payload}
    (h : w.mem a = some c) (hb : w.bytes a = some p) :
    get p.type a w = .ok ({ addr := a, type := p.type }, w) ∧
      Ref.read { addr := a, type := p.type } w = some p := by
  simp [get, h, hb, read_as, Ref.read]

theorem occupied_of_mem {w : World} {a : Addr} {c : unique_any} (h : w.mem a = some c) :
    occupied a w = c.pointer.isSome := by
  simp [occupied, h]

theorem destructor_calls_of_occupied {a : Addr} {c : unique_any} {p : Payload}
    (hc : Consistent a c) (hp : c.pointer ≠ none) (hs : c.type_erased_storage = some p) :
    destructor_calls a c = [.destroyed p.type a] := by
  obtain ⟨hpa, q, hq, hd, -⟩ := consistent_occupied hc hp
  rw [hs] at hq
  cases hq
  simp [destructor_calls, hpa, hd]

theorem run_append (xs ys : List Op) (w : World) :
    run (xs ++ ys) w =
      match run xs w with
      | .ok w1 => run ys w1
      | .error e => .error e := by
  induction xs generalizing w with
  | nil => simp [run]
  | cons x rest ih =>
    simp only [List.cons_append, run]
    cases step x w with
    | error e => rfl
    | ok w1 => exact ih w1

/-- One more successful operation leads from a reachable world to a reachable world. -/
theorem reachable_step {op : Op} {w w1 : World} (hr : Reachable w)
    (hs : step op w = .ok w1) : Reachable w1 := by
  obtain ⟨ops, hops⟩ := hr
  refine ⟨ops ++ [op], ?_⟩
  rw [run_append, hops]
  simp [run, hs]

/-! ## The claims -/

/-- Counterexample to C2 as stated.  First, with the source built from a value of the
type whose braces select an initializer-list constructor, the source holds the
one-element sequence around 7 before the assignment and the destination reads back
that sequence wrapped once more.  Second, with a source whose payload move
constructor throws on line 50, the assignment ends with the destination empty and
still carrying its `NonCopyable` handlers. -/
theorem move_assign_wraps_or_throws :
    read_value any_vector 1 vector_before_assign = some (wrapped 7) ∧
      read_value any_vector 0
        (world_after [.construct 0 NonCopyable 5, .construct 1 any_vector 7,
          .move_assign 0 1]) = some (wrapped (wrapped 7)) ∧
      wrapped (wrapped 7) ≠ wrapped 7 ∧
      container_at (move_assign_throw 0 1 thrower_before_assign) 0 = some
        { pointer := none
          type_erased_storage := none
          delete_storage := some NonCopyable
          move_storage := some NonCopyable } := by
  refine ⟨rfl, rfl, by decide, rfl⟩

/-- C2 (amended): in a reachable world, let a distinct source `s` be occupied by a
payload `ps` of a type `U` whose braces around a `U` move it, and let the destination
`d` be occupied by a payload `pd` of type `T`.  The execution of the move assignment
in which the move constructor of `U` returns succeeds; afterwards `d` is occupied,
`get<U>()` on `d` returns a reference to `ps`, both handlers of `d` are the ones bound
to `U`, and the assignment made exactly two payload calls: the destructor of `T` on `d` once, then the
move constructor of `U`.  When `U` is nothrow-move-constructible there is no other
execution. -/
theorem move_assign_replaces_payload (w : World) (d s : Addr) (cd cs : unique_any)
    (pd ps : Payload) (hr : Reachable w) (hne : d ≠ s)
    (hd : w.mem d = some cd) (hs : w.mem s = some cs)
    (hdo : cd.pointer ≠ none) (hso : cs.pointer ≠ none)
    (hdp : cd.type_erased_storage = some pd) (hsp : cs.type_erased_storage = some ps)
    (hbraces : ps.type.list_constructor = false) :
    ∃ w1 c1, move_assign d s w = .ok w1 ∧ w1.mem d = some c1 ∧
      occupied d w1 = true ∧
      get ps.type d w1 = .ok ({ addr := d, type := ps.type }, w1) ∧
      Ref.read { addr := d, type := ps.type } w1 = some ps ∧
      c1.delete_storage = some ps.type ∧ c1.move_storage = some ps.type ∧
      w1.trace = w.trace ++ [.destroyed pd.type d, .moved ps.type d s] ∧
      w1.trace.count (.destroyed pd.type d) = w.trace.count (.destroyed pd.type d) + 1 ∧
      (ps.type.nothrow_move_constructible = true →
        move_assign_throw d s w = .error .no_throw) := by
  have hi := reachable_inv hr
  have hcd := hi d cd hd
  have hcs := hi s cs hs
  obtain ⟨hps, q, hq, hqd, hqm⟩ := consistent_occupied hcs hso
  rw [hsp] at hq
  cases hq
  obtain ⟨w1, hma, hm, ht, hb⟩ := move_assign_of_occupied_full hne hd hs hcd hps hsp hqm
  rw [relocated_eq hbraces] at hb
  have hmd := hm d
  simp only [if_true] at hmd
  have htr : w1.trace = w.trace ++ [.destroyed pd.type d, .moved ps.type d s] := by
    rw [ht, destructor_calls_of_occupied hcd hdo hdp]
    simp
  refine ⟨w1, _, hma, hmd, ?_, (get_of_bytes hmd hb).1, (get_of_bytes hmd hb).2, hqd, hqm,
    htr, ?_, ?_⟩
  · simp [occupied_of_mem hmd]
  · rw [htr]
    simp [List.count_cons]
  · intro hth
    exact move_assign_throw_of_nothrow hne hd hs hcd hps hsp hqm hth

/-- Witness for the amended C2: the program of `main`, where the container holding
`NonCopyable{5}` is assigned the temporary built from `23.5f`. -/
theorem move_assign_replaces_payload_witness :
    ∃ w1 c1, move_assign 0 1 main_before_assign = .ok w1 ∧ w1.mem 0 = some c1 ∧
      occupied 0 w1 = true ∧
      get float 0 w1 = .ok ({ addr := 0, type := float }, w1) ∧
      Ref.read { addr := 0, type := float } w1 =
        some { type := float, value := float_23_5, moved_from := false } ∧
      c1.delete_storage = some float ∧ c1.move_storage = some float ∧
      w1.trace = main_before_assign.trace ++
        [.destroyed NonCopyable 0, .moved float 0 1] ∧
      w1.trace.count (.destroyed NonCopyable 0) =
        main_before_assign.trace.count (.destroyed NonCopyable 0) + 1 ∧
      (float.nothrow_move_constructible = true →
        move_assign_throw 0 1 main_before_assign = .error .no_throw) :=
  move_assign_replaces_payload main_before_assign 0 1
    { pointer := some 0
      type_erased_storage := some { type := NonCopyable, value := 5, moved_from := false }
      delete_storage := some NonCopyable
      move_storage := some NonCopyable }
    { pointer := some 1
      type_erased_storage := some { type := float, value := float_23_5, moved_from := false }
      delete_storage := some float
      move_storage := some float }
    { type := NonCopyable, value := 5, moved_from := false }
    { type := float, value := float_23_5, moved_from := false }
    ⟨[.construct 0 NonCopyable 5, .construct 1 float float_23_5], rfl⟩
    (by decide) rfl rfl (by simp) (by simp) rfl rfl rfl

/-- Counterexample to C3 as stated.  First, a container move-constructed from one
that holds the one-element sequence around 7, of the type whose braces select an
initializer-list constructor, reads back that sequence wrapped once more.  Second,
when the payload move constructor of the source throws, the move construction ends
without any container at the new address. -/
theorem move_construct_wraps_or_throws :
    read_value any_vector 0 (world_after [.construct 0 any_vector 7]) = some (wrapped 7) ∧
      read_value any_vector 1
        (world_after [.construct 0 any_vector 7, .move_construct 1 0]) =
          some (wrapped (wrapped 7)) ∧
      wrapped (wrapped 7) ≠ wrapped 7 ∧
      completed (move_construct_throw 1 0 (world_after [.construct 0 thrower 7])) = true ∧
      container_at (move_construct_throw 1 0 (world_after [.construct 0 thrower 7])) 1 =
        none := by
  refine ⟨rfl, rfl, by decide, rfl, rfl⟩

/-- C3 (amended): in a reachable world, let the source `s` be occupied by a payload `p`
of a type `T` whose braces around a `T` move it.  The execution of the move
construction at a fresh address `d` in which the move constructor of `T` returns
succeeds; the new container is occupied, `get<T>()` on it returns a reference to the
payload `s` held before the move, and its destroyer and mover are the ones `s` had.  When `T` is
nothrow-move-constructible there is no other execution. -/
theorem move_construct_transfers_payload (w : World) (d s : Addr) (cs : unique_any)
    (p : Payload) (hr : Reachable w) (hfresh : w.mem d = none) (hs : w.mem s = some cs)
    (hso : cs.pointer ≠ none) (hsp : cs.type_erased_storage = some p)
    (hbraces : p.type.list_constructor = false) :
    ∃ w1 c1, move_construct d s w = .ok w1 ∧ w1.mem d = some c1 ∧
      occupied d w1 = true ∧
      get p.type d w1 = .ok ({ addr := d, type := p.type }, w1) ∧
      Ref.read { addr := d, type := p.type } w1 = some p ∧
      c1.delete_storage = cs.delete_storage ∧ c1.move_storage = cs.move_storage ∧
      (p.type.nothrow_move_constructible = true →
        move_construct_throw d s w = .error .no_throw) := by
  have hcs := reachable_inv hr s cs hs
  obtain ⟨hps, q, hq, -, hqm⟩ := consistent_occupied hcs hso
  rw [hsp] at hq
  cases hq
  obtain ⟨w1, hmc, hm, -, hb⟩ := move_construct_of_occupied_full hfresh hs hps hsp hqm
  rw [relocated_eq hbraces] at hb
  have hmd := hm d
  simp only [if_true] at hmd
  refine ⟨w1, _, hmc, hmd, ?_, (get_of_bytes hmd hb).1, (get_of_bytes hmd hb).2, rfl, rfl,
    ?_⟩
  · simp [occupied_of_mem hmd]
  · intro hth
    exact move_construct_throw_of_nothrow hfresh hs hps hsp hqm hth

/-- Witness for the amended C3: a second container move-constructed from the one
holding `NonCopyable{5}`. -/
theorem move_construct_transfers_payload_witness :
    ∃ w1 c1, move_construct 1 0 holding_noncopyable = .ok w1 ∧ w1.mem 1 = some c1 ∧
      occupied 1 w1 = true ∧
      get NonCopyable 1 w1 = .ok ({ addr := 1, type := NonCopyable }, w1) ∧
      Ref.read { addr := 1, type := NonCopyable } w1 =
        some { type := NonCopyable, value := 5, moved_from := false } ∧
      c1.delete_storage = some NonCopyable ∧ c1.move_storage = some NonCopyable ∧
      (NonCopyable.nothrow_move_constructible = true →
        move_construct_throw 1 0 holding_noncopyable = .error .no_throw) :=
  move_construct_transfers_payload holding_noncopyable 1 0
    { pointer := some 0
      type_erased_storage := some { type := NonCopyable, value := 5, moved_from := false }
      delete_storage := some NonCopyable
      move_storage := some NonCopyable }
    { type := NonCopyable, value := 5, moved_from := false }
    ⟨[.construct 0 NonCopyable 5], rfl⟩ rfl rfl (by simp) rfl rfl

/-- C4: for every container `c` of a reachable world, `destruct()` succeeds, and so
does the destructor `~unique_any` with the same payload calls; if the marker of `c`
is null no payload destructor is called at all, and if it is non-null the destroyer
bound in `c` is called exactly once, on the storage of `c`, and nothing else is. -/
theorem destruct_calls_destroyer_once (w : World) (a : Addr) (c : unique_any)
    (hr : Reachable w) (hc : w.mem a = some c) :
    ∃ w1 w2, destruct a w = .ok w1 ∧ destroy a w = .ok w2 ∧ w2.trace = w1.trace ∧
      (c.pointer = none → w1.trace = w.trace) ∧
      (c.pointer ≠ none → ∃ T, c.delete_storage = some T ∧
        w1.trace = w.trace ++ [.destroyed T a]) := by
  have hcc := reachable_inv hr a c hc
  obtain ⟨w1, hd, -, ht⟩ := destruct_spec hc hcc
  refine ⟨w1, (w1.store a none).set_bytes a none, hd, ?_, rfl, ?_, ?_⟩
  · simp [destroy, hd]
  · intro hp
    simp [ht, destructor_calls, hp]
  · intro hp
    obtain ⟨-, p, hs, hdel, -⟩ := consistent_occupied hcc hp
    exact ⟨p.type, hdel, by rw [ht, destructor_calls_of_occupied hcc hp hs]⟩

/-- Witness for C4: destroying the container that holds `NonCopyable{5}`. -/
theorem destruct_calls_destroyer_once_witness :
    ∃ w1 w2, destruct 0 holding_noncopyable = .ok w1 ∧
      destroy 0 holding_noncopyable = .ok w2 ∧ w2.trace = w1.trace ∧
      ((some 0 : Option Addr) = none → w1.trace = holding_noncopyable.trace) ∧
      ((some 0 : Option Addr) ≠ none → ∃ T, some NonCopyable = some T ∧
        w1.trace = holding_noncopyable.trace ++ [.destroyed T 0]) :=
  destruct_calls_destroyer_once holding_noncopyable 0
    { pointer := some 0
      type_erased_storage := some { type := NonCopyable, value := 5, moved_from := false }
      delete_storage := some NonCopyable
      move_storage := some NonCopyable }
    ⟨[.construct 0 NonCopyable 5], rfl⟩ rfl

/-- C5: for every container (occupied or empty, in any world at all), assigning the
container to itself returns the very same world: marker, payload and both handlers
are as before and no payload destructor or move constructor is called. -/
theorem self_move_assign_noop (w : World) (this : Addr) (c : unique_any)
    (hc : w.mem this = some c) : move_assign this this w = .ok w :=
  move_assign_of_same_pointer hc hc rfl

/-- Witness for C5: self-assignment of the container that holds `NonCopyable{5}`. -/
theorem self_move_assign_noop_witness :
    move_assign 0 0 holding_noncopyable = .ok holding_noncopyable :=
  self_move_assign_noop holding_noncopyable 0
    { pointer := some 0
      type_erased_storage := some { type := NonCopyable, value := 5, moved_from := false }
      delete_storage := some NonCopyable
      move_storage := some NonCopyable }
    rfl

/-- C6: for every container of a reachable world, `destruct()` succeeds and leaves
the container empty; a second `destruct()` then returns the very same world (no
change, no destructor call), so running `destruct` twice gives the same result as
running it once. -/
theorem destruct_idempotent (w : World) (a : Addr) (c : unique_any)
    (hr : Reachable w) (hc : w.mem a = some c) :
    ∃ w1, destruct a w = .ok w1 ∧ occupied a w1 = false ∧
      destruct a w1 = .ok w1 ∧
      run [.destruct a, .destruct a] w = run [.destruct a] w := by
  have hcc := reachable_inv hr a c hc
  obtain ⟨w1, hd, hm, -⟩ := destruct_spec hc hcc
  have hma := hm a
  simp only [if_true] at hma
  have h2 : destruct a w1 = .ok w1 := by
    rw [destruct_of_empty hma rfl]
    congr 1
    apply world_ext
    · intro x
      by_cases hx : x = a
      · subst hx; simp [hma]
      · simp [hx]
    · simp
    · intro x; simp
  refine ⟨w1, hd, ?_, h2, ?_⟩
  · simp [occupied_of_mem hma]
  · simp [run, step, hd, h2]

/-- Witness for C6: `destruct` twice on the container that holds `NonCopyable{5}`. -/
theorem destruct_idempotent_witness :
    ∃ w1, destruct 0 holding_noncopyable = .ok w1 ∧ occupied 0 w1 = false ∧
      destruct 0 w1 = .ok w1 ∧
      run [.destruct 0, .destruct 0] holding_noncopyable =
        run [.destruct 0] holding_noncopyable :=
  destruct_idempotent holding_noncopyable 0
    { pointer := some 0
      type_erased_storage := some { type := NonCopyable, value := 5, moved_from := false }
      delete_storage := some NonCopyable
      move_storage := some NonCopyable }
    ⟨[.construct 0 NonCopyable 5], rfl⟩ rfl

/-- C7: in every reachable world (any sequence of converting constructions,
`destruct`, move constructions, move assignments and destructor runs over any set of
containers), the marker of every container is null if and only if no payload object
is alive in that container's storage. -/
theorem occupied_marker_invariant (w : World) (a : Addr) (c : unique_any)
    (hr : Reachable w) (hc : w.mem a = some c) :
    c.pointer = none ↔ c.type_erased_storage = none := by
  rcases (reachable_inv hr a c hc).2 with ⟨hp, hs⟩ | ⟨hp, p, hs, -⟩
  · simp [hp, hs]
  · simp [hp, hs]

/-- Witness for C7: the source of a move construction, whose marker is still set and
whose storage still holds the moved-from `NonCopyable`. -/
theorem occupied_marker_invariant_witness :
    (some 0 : Option Addr) = none ↔
      (some { type := NonCopyable, value := 5, moved_from := true } : Option Payload) = none :=
  occupied_marker_invariant after_move_construct 0
    { pointer := some 0
      type_erased_storage := some { type := NonCopyable, value := 5, moved_from := true }
      delete_storage := some NonCopyable
      move_storage := some NonCopyable }
    ⟨[.construct 0 NonCopyable 5, .move_construct 1 0], rfl⟩ rfl

/-- C8: in every reachable world, a container whose storage holds a live payload of
type `T` is occupied and has its destroyer and its mover both bound to that same `T`;
and after any further operation (converting construction, move construction, move
assignment, `destruct`, destructor) every container holding a live payload again has
both handlers bound to the type of that payload, so an operation that changes the
live type sets the two handlers together to the new type. -/
theorem handlers_match_live_type (w : World) (hr : Reachable w) :
    (∀ a c p, w.mem a = some c → c.type_erased_storage = some p →
      c.pointer ≠ none ∧ c.delete_storage = some p.type ∧ c.move_storage = some p.type) ∧
    (∀ op w1, step op w = .ok w1 → ∀ a c p, w1.mem a = some c →
      c.type_erased_storage = some p →
      c.pointer ≠ none ∧ c.delete_storage = some p.type ∧ c.move_storage = some p.type) := by
  have key : ∀ v : World, Reachable v → ∀ a c p, v.mem a = some c →
      c.type_erased_storage = some p →
      c.pointer ≠ none ∧ c.delete_storage = some p.type ∧ c.move_storage = some p.type := by
    intro v hv a c p hc hp
    rcases (reachable_inv hv a c hc).2 with ⟨-, hs⟩ | ⟨hpa, q, hs, hd, hm⟩
    · simp [hp] at hs
    · rw [hp] at hs
      cases hs
      exact ⟨by simp [hpa], hd, hm⟩
  exact ⟨key w hr, fun op w1 hs => key w1 (reachable_step hr hs)⟩

/-- Witness for C8: the assignment `any = 23.5f` of `main` changes the live type of the
container at address 0 from `NonCopyable` to `float`, and both handlers are then the
`float` ones. -/
theorem handlers_match_live_type_witness :
    (some 0 : Option Addr) ≠ none ∧
      (some float : Option PayloadType) = some float ∧
      (some float : Option PayloadType) = some float :=
  (handlers_match_live_type main_before_assign
    ⟨[.construct 0 NonCopyable 5, .construct 1 float float_23_5], rfl⟩).2
    (.move_assign 0 1) main_assigned rfl 0
    { pointer := some 0
      type_erased_storage := some { type := float, value := float_23_5, moved_from := false }
      delete_storage := some float
      move_storage := some float }
    { type := float, value := float_23_5, moved_from := false }
    rfl rfl

/-- Counterexample to C9 as stated: the container at address 1 is built from `23.5f`
and emptied by `destruct()`; move-assigning it into the container that holds
`NonCopyable{5}` leaves the destination empty, but with both handlers bound to
`float`, not null. -/
theorem move_assign_from_empty_binds_handlers :
    run [.construct 0 NonCopyable 5, .construct 1 float float_23_5, .destruct 1]
        World.empty = .ok source_destructed ∧
      occupied 1 source_destructed = false ∧
      container_at (move_assign 0 1 source_destructed) 0 = some
        { pointer := none, type_erased_storage := none,
          delete_storage := some float, move_storage := some float } ∧
      ¬ ((container_at (move_assign 0 1 source_destructed) 0).bind
          unique_any.delete_storage = none) ∧
      ¬ ((container_at (move_assign 0 1 source_destructed) 0).bind
          unique_any.move_storage = none) := by
  refine ⟨rfl, rfl, rfl, ?_, ?_⟩
  · show ¬ ((some float : Option PayloadType) = none)
    simp
  · show ¬ ((some float : Option PayloadType) = none)
    simp

/-- C9 (amended): in a reachable world, move-assigning a distinct empty source `s`
into `d` succeeds and leaves `d` empty with nothing alive in its storage, and the
handlers of `d` are never null afterwards.  If `d` was occupied, its payload's
destructor is called once and `d` receives the destroyer and mover of `s`; if `d` was
empty as well, the assignment changes nothing and `d` keeps its own handlers. -/
theorem move_assign_from_empty_source (w : World) (d s : Addr) (cd cs : unique_any)
    (hr : Reachable w) (hne : d ≠ s) (hd : w.mem d = some cd) (hs : w.mem s = some cs)
    (hse : cs.pointer = none) :
    ∃ w1 c1, move_assign d s w = .ok w1 ∧ w1.mem d = some c1 ∧
      c1.pointer = none ∧ c1.type_erased_storage = none ∧
      c1.delete_storage ≠ none ∧ c1.move_storage ≠ none ∧
      (cd.pointer ≠ none →
        c1.delete_storage = cs.delete_storage ∧ c1.move_storage = cs.move_storage ∧
        ∀ pd, cd.type_erased_storage = some pd →
          w1.trace = w.trace ++ [.destroyed pd.type d]) ∧
      (cd.pointer = none → w1 = w) := by
  have hi := reachable_inv hr
  have hcd := hi d cd hd
  have hcs := hi s cs hs
  by_cases hdp : cd.pointer = none
  · have hst : cd.type_erased_storage = none := by
      rcases hcd.2 with ⟨-, h⟩ | ⟨h, -⟩
      · exact h
      · simp [hdp] at h
    obtain ⟨H, hH1, hH2, -⟩ := hcd.1
    refine ⟨w, cd, move_assign_of_same_pointer hd hs (by rw [hse, hdp]), hd, hdp, hst,
      by simp [hH1], by simp [hH2], fun h => absurd hdp h, fun _ => rfl⟩
  · obtain ⟨w1, hma, hm, ht⟩ := move_assign_of_empty hne hd hs hcd hdp hse
    have hmd := hm d
    simp only [if_true] at hmd
    obtain ⟨H, hH1, hH2, -⟩ := hcs.1
    refine ⟨w1, _, hma, hmd, rfl, rfl, by simp [hH1], by simp [hH2], fun _ => ⟨rfl, rfl, ?_⟩,
      fun h => absurd h hdp⟩
    intro pd hpd
    rw [ht, destructor_calls_of_occupied hcd hdp hpd]

/-- Witness for the amended C9: the assignment of the counterexample. -/
theorem move_assign_from_empty_source_witness :
    ∃ w1 c1, move_assign 0 1 source_destructed = .ok w1 ∧ w1.mem 0 = some c1 ∧
      c1.pointer = none ∧ c1.type_erased_storage = none ∧
      c1.delete_storage ≠ none ∧ c1.move_storage ≠ none ∧
      ((some 0 : Option Addr) ≠ none →
        c1.delete_storage = some float ∧ c1.move_storage = some float ∧
        ∀ pd : Payload,
          (some { type := NonCopyable, value := 5, moved_from := false } : Option Payload) =
            some pd →
          w1.trace = source_destructed.trace ++ [.destroyed pd.type 0]) ∧
      ((some 0 : Option Addr) = none → w1 = source_destructed) :=
  move_assign_from_empty_source source_destructed 0 1
    { pointer := some 0
      type_erased_storage := some { type := NonCopyable, value := 5, moved_from := false }
      delete_storage := some NonCopyable
      move_storage := some NonCopyable }
    { pointer := none
      type_erased_storage := none
      delete_storage := some float
      move_storage := some float }
    ⟨[.construct 0 NonCopyable 5, .construct 1 float float_23_5, .destruct 1], rfl⟩
    (by decide) rfl rfl rfl

/-- C10: in a reachable world, move-constructing a container at a fresh address `d`
from any source `s` succeeds and leaves the marker, the destroyer and the mover of
`s` exactly as they were (so the marker is still non-null when `s` was occupied);
the payload in the storage of `s`, if any, keeps its type and is marked moved-from,
and no container other than `d` and `s` changes. -/
theorem move_construct_keeps_source_marker (w : World) (d s : Addr) (cs : unique_any)
    (hr : Reachable w) (hfresh : w.mem d = none) (hs : w.mem s = some cs) :
    ∃ w1 c1, move_construct d s w = .ok w1 ∧ w1.mem s = some c1 ∧
      c1.pointer = cs.pointer ∧ c1.delete_storage = cs.delete_storage ∧
      c1.move_storage = cs.move_storage ∧
      c1.type_erased_storage = moved_out cs.type_erased_storage ∧
      (∀ x, x ≠ d → x ≠ s → w1.mem x = w.mem x) := by
  have hcs := reachable_inv hr s cs hs
  have hne : s ≠ d := by rintro rfl; simp [hfresh] at hs
  by_cases hp : cs.pointer = none
  · have hst : cs.type_erased_storage = none := by
      rcases hcs.2 with ⟨-, h⟩ | ⟨h, -⟩
      · exact h
      · simp [hp] at h
    obtain ⟨w1, hmc, hm, -⟩ := move_construct_of_empty hfresh hs hp
    refine ⟨w1, cs, hmc, by simp [hm, hne, hs], rfl, rfl, rfl, by simp [hst, moved_out], ?_⟩
    intro x hxd _
    simp [hm, hxd]
  · obtain ⟨hps, p, hsp, -, hpm⟩ := consistent_occupied hcs hp
    obtain ⟨w1, hmc, hm, -⟩ := move_construct_of_occupied hfresh hs hps hsp hpm
    have hms : w1.mem s = some { cs with type_erased_storage := moved_out (some p) } := by
      simp [hm, hne]
    refine ⟨w1, _, hmc, hms, rfl, rfl, rfl, by simp [hsp], ?_⟩
    intro x hxd hxs
    simp [hm, hxd, hxs]

/-- Witness for C10: move construction from the container that holds
`NonCopyable{5}`. -/
theorem move_construct_keeps_source_marker_witness :
    ∃ w1 c1, move_construct 1 0 holding_noncopyable = .ok w1 ∧ w1.mem 0 = some c1 ∧
      c1.pointer = some 0 ∧ c1.delete_storage = some NonCopyable ∧
      c1.move_storage = some NonCopyable ∧
      c1.type_erased_storage =
        moved_out (some { type := NonCopyable, value := 5, moved_from := false }) ∧
      (∀ x, x ≠ 1 → x ≠ 0 → w1.mem x = holding_noncopyable.mem x) :=
  move_construct_keeps_source_marker holding_noncopyable 1 0
    { pointer := some 0
      type_erased_storage := some { type := NonCopyable, value := 5, moved_from := false }
      delete_storage := some NonCopyable
      move_storage := some NonCopyable }
    ⟨[.construct 0 NonCopyable 5], rfl⟩ rfl rfl

/-- Counterexample to C11 as stated: in `main`, after `any = 23.5f` has assigned from
the occupied temporary at address 1, the marker of the temporary is still the address
of its own storage, not null, and its storage holds the moved-from `float`. -/
theorem move_assign_leaves_source_marker_set :
    run [.construct 0 NonCopyable 5, .construct 1 float float_23_5] World.empty =
        .ok main_before_assign ∧
      occupied 1 main_before_assign = true ∧
      container_at (move_assign 0 1 main_before_assign) 1 = some
        { pointer := some 1
          type_erased_storage :=
            some { type := float, value := float_23_5, moved_from := true }
          delete_storage := some float
          move_storage := some float } ∧
      ¬ ((container_at (move_assign 0 1 main_before_assign) 1).bind
          unique_any.pointer = none) := by
  refine ⟨rfl, rfl, rfl, ?_⟩
  show ¬ ((some 1 : Option Addr) = none)
  simp

/-- C11 (amended): in a reachable world, move-assigning an occupied source `s` into a
distinct destination `d` succeeds and leaves the marker of `s` as it was, hence
non-null, and its destroyer and mover unchanged; the storage of `s` still holds its
payload, now moved-from, while `d` is occupied by a payload of its own, so each of the
two containers has one payload to destroy. -/
theorem move_assign_keeps_source_marker (w : World) (d s : Addr) (cd cs : unique_any)
    (hr : Reachable w) (hne : d ≠ s) (hd : w.mem d = some cd) (hs : w.mem s = some cs)
    (hso : cs.pointer ≠ none) :
    ∃ w1 c1, move_assign d s w = .ok w1 ∧ w1.mem s = some c1 ∧
      c1.pointer = cs.pointer ∧ c1.pointer ≠ none ∧
      c1.delete_storage = cs.delete_storage ∧ c1.move_storage = cs.move_storage ∧
      c1.type_erased_storage = moved_out cs.type_erased_storage ∧
      c1.type_erased_storage ≠ none ∧
      occupied s w1 = true ∧ occupied d w1 = true := by
  have hi := reachable_inv hr
  have hcd := hi d cd hd
  have hcs := hi s cs hs
  obtain ⟨hps, p, hsp, -, hpm⟩ := consistent_occupied hcs hso
  obtain ⟨w1, hma, hm, -⟩ := move_assign_of_occupied hne hd hs hcd hps hsp hpm
  have hms : w1.mem s = some { cs with type_erased_storage := moved_out (some p) } := by
    simp [hm, Ne.symm hne]
  have hmd := hm d
  simp only [if_true] at hmd
  refine ⟨w1, _, hma, hms, rfl, hso, rfl, rfl, by simp [hsp], by simp [moved_out], ?_, ?_⟩
  · simp [occupied_of_mem hms, hps]
  · simp [occupied_of_mem hmd]

/-- Witness for the amended C11: the assignment `any = 23.5f` of `main`. -/
theorem move_assign_keeps_source_marker_witness :
    ∃ w1 c1, move_assign 0 1 main_before_assign = .ok w1 ∧ w1.mem 1 = some c1 ∧
      c1.pointer = some 1 ∧ c1.pointer ≠ none ∧
      c1.delete_storage = some float ∧ c1.move_storage = some float ∧
      c1.type_erased_storage =
        moved_out (some { type := float, value := float_23_5, moved_from := false }) ∧
      c1.type_erased_storage ≠ none ∧
      occupied 1 w1 = true ∧ occupied 0 w1 = true :=
  move_assign_keeps_source_marker main_before_assign 0 1
    { pointer := some 0
      type_erased_storage := some { type := NonCopyable, value := 5, moved_from := false }
      delete_storage := some NonCopyable
      move_storage := some NonCopyable }
    { pointer := some 1
      type_erased_storage := some { type := float, value := float_23_5, moved_from := false }
      delete_storage := some float
      move_storage := some float }
    ⟨[.construct 0 NonCopyable 5, .construct 1 float float_23_5], rfl⟩
    (by decide) rfl rfl (by simp)

/-- C15: for every empty source `s` (in any world at all) and every fresh address `d`,
move construction succeeds; the new container has a null marker and nothing alive in
its storage, its destroyer and mover are copies of those of `s`, no payload
constructor or destructor is called (the trace is unchanged, so the mover did not
run), and no other container changes. -/
theorem move_construct_from_empty (w : World) (d s : Addr) (cs : unique_any)
    (hfresh : w.mem d = none) (hs : w.mem s = some cs) (hse : cs.pointer = none) :
    ∃ w1 c1, move_construct d s w = .ok w1 ∧ w1.mem d = some c1 ∧
      c1.pointer = none ∧ occupied d w1 = false ∧ c1.type_erased_storage = none ∧
      c1.delete_storage = cs.delete_storage ∧ c1.move_storage = cs.move_storage ∧
      w1.trace = w.trace ∧ (∀ x, x ≠ d → w1.mem x = w.mem x) := by
  obtain ⟨w1, hmc, hm, ht⟩ := move_construct_of_empty hfresh hs hse
  have hmd := hm d
  simp only [if_true] at hmd
  refine ⟨w1, _, hmc, hmd, rfl, ?_, rfl, rfl, rfl, ht, ?_⟩
  · simp [occupied_of_mem hmd]
  · intro x hx
    simp [hm, hx]

/-- Witness for C15: move construction from the container that was built from `23.5f`
and then emptied by `destruct()`. -/
theorem move_construct_from_empty_witness :
    ∃ w1 c1, move_construct 2 1 source_destructed = .ok w1 ∧ w1.mem 2 = some c1 ∧
      c1.pointer = none ∧ occupied 2 w1 = false ∧ c1.type_erased_storage = none ∧
      c1.delete_storage = some float ∧ c1.move_storage = some float ∧
      w1.trace = source_destructed.trace ∧
      (∀ x, x ≠ 2 → w1.mem x = source_destructed.mem x) :=
  move_construct_from_empty source_destructed 2 1
    { pointer := none
      type_erased_storage := none
      delete_storage := some float
      move_storage := some float }
    rfl rfl rfl

/-- C17: in every reachable world the destroyer and the mover of every container are
both non-null, whether the container is occupied or empty; they are in fact bound to
one and the same admissible payload type. -/
theorem handlers_never_null (w : World) (a : Addr) (c : unique_any)
    (hr : Reachable w) (hc : w.mem a = some c) :
    c.delete_storage ≠ none ∧ c.move_storage ≠ none ∧
      ∃ H, c.delete_storage = some H ∧ c.move_storage = some H ∧ admissible H = true := by
  obtain ⟨H, h1, h2, h3⟩ := (reachable_inv hr a c hc).1
  exact ⟨by simp [h1], by simp [h2], H, h1, h2, h3⟩

/-- Witness for C17: the container built from `23.5f` and emptied by `destruct()` is
empty and still has both handlers bound to `float`. -/
theorem handlers_never_null_witness :
    (some float : Option PayloadType) ≠ none ∧ (some float : Option PayloadType) ≠ none ∧
      ∃ H, (some float : Option PayloadType) = some H ∧
        (some float : Option PayloadType) = some H ∧ admissible H = true :=
  handlers_never_null source_destructed 1
    { pointer := none
      type_erased_storage := none
      delete_storage := some float
      move_storage := some float }
    ⟨[.construct 0 NonCopyable 5, .construct 1 float float_23_5, .destruct 1], rfl⟩ rfl

/-- C18: in every reachable world the marker of an occupied container is the address
of its own storage, so for two distinct containers `d` and `s` the markers compare
equal (the guard `other.pointer != this->pointer` is false) exactly when both are
empty; in that case the assignment returns the very same world, so `d` keeps its own
destroyer and mover whatever those of `s` are. -/
theorem move_assign_guard_compares_markers (w : World) (d s : Addr) (cd cs : unique_any)
    (hr : Reachable w) (hne : d ≠ s) (hd : w.mem d = some cd) (hs : w.mem s = some cs) :
    (cd.pointer ≠ none → cd.pointer = some d) ∧
      (cs.pointer ≠ none → cs.pointer = some s) ∧
      (cs.pointer = cd.pointer ↔ cs.pointer = none ∧ cd.pointer = none) ∧
      (cs.pointer = none → cd.pointer = none →
        move_assign d s w = .ok w ∧
        container_at (move_assign d s w) d = some cd) := by
  have hi := reachable_inv hr
  have hcd := hi d cd hd
  have hcs := hi s cs hs
  refine ⟨fun h => (consistent_occupied hcd h).1, fun h => (consistent_occupied hcs h).1,
    ?_, ?_⟩
  · constructor
    · intro heq
      by_cases hsn : cs.pointer = none
      · exact ⟨hsn, by rw [← heq, hsn]⟩
      · have h1 := (consistent_occupied hcs hsn).1
        have hdn : cd.pointer ≠ none := by rw [← heq]; exact hsn
        have h2 := (consistent_occupied hcd hdn).1
        rw [h1, h2] at heq
        exact absurd (Option.some.inj heq).symm hne
    · rintro ⟨h1, h2⟩
      rw [h1, h2]
  · intro h1 h2
    have hma := move_assign_of_same_pointer hd hs (by rw [h1, h2])
    exact ⟨hma, by simp [hma, container_at, hd]⟩

/-- Witness for C18: two emptied containers, one with `NonCopyable` handlers and one
with `float` handlers; the assignment does nothing and the destination keeps its
`NonCopyable` handlers. -/
theorem move_assign_guard_compares_markers_witness :
    ((none : Option Addr) ≠ none → (none : Option Addr) = some 0) ∧
      ((none : Option Addr) ≠ none → (none : Option Addr) = some 1) ∧
      ((none : Option Addr) = none ↔ (none : Option Addr) = none ∧ (none : Option Addr) = none) ∧
      ((none : Option Addr) = none → (none : Option Addr) = none →
        move_assign 0 1 both_destructed = .ok both_destructed ∧
        container_at (move_assign 0 1 both_destructed) 0 = some
          { pointer := none
            type_erased_storage := none
            delete_storage := some NonCopyable
            move_storage := some NonCopyable }) :=
  move_assign_guard_compares_markers both_destructed 0 1
    { pointer := none
      type_erased_storage := none
      delete_storage := some NonCopyable
      move_storage := some NonCopyable }
    { pointer := none
      type_erased_storage := none
      delete_storage := some float
      move_storage := some float }
    ⟨[.construct 0 NonCopyable 5, .construct 1 float float_23_5, .destruct 0,
      .destruct 1], rfl⟩
    (by decide) rfl rfl

/-! ## Totality and fault kinds -/

@[simp] theorem set_pointer_bytes (w : World) (a : Addr) (p : Option Addr) :
    (w.set_pointer a p).bytes = w.bytes := by
  unfold World.set_pointer
  split <;> rfl

@[simp] theorem set_storage_bytes (w : World) (a : Addr) (s : Option Payload) :
    (w.set_storage a s).bytes = w.bytes := by
  unfold World.set_storage
  split <;> rfl

@[simp] theorem set_delete_storage_bytes (w : World) (a : Addr) (h : Option PayloadType) :
    (w.set_delete_storage a h).bytes = w.bytes := by
  unfold World.set_delete_storage
  split <;> rfl

@[simp] theorem set_move_storage_bytes (w : World) (a : Addr) (h : Option PayloadType) :
    (w.set_move_storage a h).bytes = w.bytes := by
  unfold World.set_move_storage
  split <;> rfl

theorem agree_log {w : World} (h : BytesAgree w) (e : Event) : BytesAgree (w.log e) :=
  fun a c p hc hp => h a c p hc hp

theorem agree_set_pointer {w : World} (h : BytesAgree w) (a : Addr) (q : Option Addr) :
    BytesAgree (w.set_pointer a q) := by
  intro x c p hc hp
  rw [set_pointer_bytes]
  unfold World.set_pointer at hc
  split at hc
  · next c0 h0 =>
    simp only [store_mem] at hc
    split at hc
    · next hxa =>
      cases hc
      subst hxa
      exact h x c0 p h0 hp
    · exact h x c p hc hp
  · exact h x c p hc hp

theorem agree_set_delete_storage {w : World} (h : BytesAgree w) (a : Addr)
    (q : Option PayloadType) : BytesAgree (w.set_delete_storage a q) := by
  intro x c p hc hp
  rw [set_delete_storage_bytes]
  unfold World.set_delete_storage at hc
  split at hc
  · next c0 h0 =>
    simp only [store_mem] at hc
    split at hc
    · next hxa =>
      cases hc
      subst hxa
      exact h x c0 p h0 hp
    · exact h x c p hc hp
  · exact h x c p hc hp

theorem agree_set_move_storage {w : World} (h : BytesAgree w) (a : Addr)
    (q : Option PayloadType) : BytesAgree (w.set_move_storage a q) := by
  intro x c p hc hp
  rw [set_move_storage_bytes]
  unfold World.set_move_storage at hc
  split at hc
  · next c0 h0 =>
    simp only [store_mem] at hc
    split at hc
    · next hxa =>
      cases hc
      subst hxa
      exact h x c0 p h0 hp
    · exact h x c p hc hp
  · exact h x c p hc hp

theorem agree_end_lifetime {w : World} (h : BytesAgree w) (a : Addr) :
    BytesAgree (w.set_storage a none) := by
  intro x c p hc hp
  rw [set_storage_bytes]
  unfold World.set_storage at hc
  split at hc
  · next c0 h0 =>
    simp only [store_mem] at hc
    split at hc
    · cases hc
      cases hp
    · exact h x c p hc hp
  · exact h x c p hc hp

theorem agree_write_storage {w : World} (h : BytesAgree w) (a : Addr) (q : Payload) :
    BytesAgree (w.write_storage a q) := by
  intro x c p hc hp
  unfold World.write_storage at hc ⊢
  simp only [set_bytes_mem] at hc
  simp only [set_bytes_bytes, set_storage_bytes]
  unfold World.set_storage at hc
  split at hc
  · next c0 h0 =>
    simp only [store_mem] at hc
    split at hc
    · next hxa =>
      cases hc
      simp only at hp
      rw [if_pos hxa]
      exact hp
    · next hxa =>
      rw [if_neg hxa]
      exact h x c p hc hp
  · next h0 =>
    by_cases hxa : x = a
    · subst hxa
      rw [h0] at hc
      cases hc
    · rw [if_neg hxa]
      exact h x c p hc hp

theorem agree_store_dead {w : World} (h : BytesAgree w) (a : Addr) (c0 : Option unique_any)
    (hdead : ∀ c, c0 = some c → c.type_erased_storage = none) :
    BytesAgree (w.store a c0) := by
  intro x c p hc hp
  simp only [store_mem] at hc
  simp only [store_bytes]
  split at hc
  · rw [hdead c hc] at hp
    cases hp
  · exact h x c p hc hp

theorem agree_release {w : World} (h : BytesAgree w) (a : Addr) :
    BytesAgree ((w.store a none).set_bytes a none) := by
  intro x c p hc hp
  simp only [set_bytes_mem, store_mem] at hc
  simp only [set_bytes_bytes, store_bytes]
  split at hc
  · cases hc
  · next hxa =>
    rw [if_neg hxa]
    exact h x c p hc hp

theorem delete_storage_call_agree {T : PayloadType} {a : Addr} {w w1 : World}
    (h : BytesAgree w) (hs : delete_storage_call T a w = .ok w1) :
    BytesAgree w1 ∧ w1.bytes = w.bytes := by
  unfold delete_storage_call at hs
  split at hs
  · cases hs
  · split at hs
    · cases hs
    · split at hs
      · cases hs
        exact ⟨agree_log (agree_end_lifetime h a) _, by simp⟩
      · cases hs

/-- The call `destruct` keeps the bytes of every storage. -/
theorem destruct_agree {a : Addr} {w w1 : World} (h : BytesAgree w)
    (hs : destruct a w = .ok w1) : BytesAgree w1 ∧ w1.bytes = w.bytes := by
  unfold destruct at hs
  split at hs
  · cases hs
  · next c hc =>
    simp only at hs
    split at hs
    · cases hs
    · next w2 hw2 =>
      cases hs
      split at hw2
      · split at hw2
        · cases hw2
        · obtain ⟨h1, h2⟩ := delete_storage_call_agree h hw2
          exact ⟨agree_set_pointer h1 a none, by simp [h2]⟩
      · cases hw2
        exact ⟨agree_set_pointer h a none, by simp⟩

theorem destroy_agree {a : Addr} {w w1 : World} (h : BytesAgree w)
    (hs : destroy a w = .ok w1) : BytesAgree w1 := by
  unfold destroy at hs
  split at hs
  · cases hs
  · next w2 hw2 =>
    cases hs
    exact agree_release (destruct_agree h hw2).1 a

theorem move_storage_call_agree {T : PayloadType} {a b q : Addr} {w w1 : World}
    (h : BytesAgree w) (hs : move_storage_call T a b w = .ok (q, w1)) : BytesAgree w1 := by
  unfold move_storage_call at hs
  split at hs
  · split at hs
    · cases hs
    · split at hs
      · simp only [Except.ok.injEq, Prod.mk.injEq] at hs
        obtain ⟨-, hs⟩ := hs
        subst hs
        apply agree_log
        apply agree_write_storage
        split
        · exact agree_log (agree_write_storage h _ _) _
        · exact agree_write_storage h _ _
      · cases hs
  · cases hs

theorem move_storage_throw_agree {T : PayloadType} {a b : Addr} {w w1 : World}
    (h : BytesAgree w) (hs : move_storage_throw T a b w = .ok w1) : BytesAgree w1 := by
  unfold move_storage_throw at hs
  split at hs
  · split at hs
    · cases hs
    · split at hs
      · split at hs
        · cases hs
        · cases hs
          exact agree_write_storage h _ _
      · cases hs
  · cases hs

theorem construct_from_agree {cat : ValueCategory} {this : Addr} {T : PayloadType}
    {v : Nat} {w w1 : World} (h : BytesAgree w)
    (hs : construct_from cat this T v w = .ok w1) : BytesAgree w1 := by
  unfold construct_from at hs
  split at hs
  · split at hs
    · split at hs
      · cases hs
      · cases hs
        intro x c p hc hp
        simp only [log_mem, set_bytes_mem, store_mem] at hc
        simp only [log_bytes, set_bytes_bytes, store_bytes]
        split at hc
        · next hxa =>
          cases hc
          simp only at hp
          rw [if_pos hxa]
          exact hp
        · next hxa =>
          rw [if_neg hxa]
          exact h x c p hc hp
    · cases hs
  · cases hs

theorem uninitialised_dead (c : unique_any) (h : some uninitialised = some c) :
    c.type_erased_storage = none := by
  cases h
  rfl

theorem move_construct_agree {d s : Addr} {w w1 : World} (h : BytesAgree w)
    (hs : move_construct d s w = .ok w1) : BytesAgree w1 := by
  unfold move_construct at hs
  split at hs
  · cases hs
  · cases hs
  · next o hf ho =>
    simp only at hs
    have h0 := agree_store_dead h d (some uninitialised) uninitialised_dead
    split at hs
    · cases hs
    · next w2 hw2 =>
      have h2 : BytesAgree w2 := by
        split at hw2
        · cases hw2
          exact agree_set_pointer h0 d none
        · split at hw2
          · cases hw2
          · split at hw2
            · cases hw2
            · next q w3 hcall =>
              cases hw2
              exact agree_set_pointer (move_storage_call_agree h0 hcall) d _
      split at hs
      · cases hs
      · cases hs
        exact agree_set_move_storage (agree_set_delete_storage h2 d _) d _

theorem move_assign_agree {d s : Addr} {w w1 : World} (h : BytesAgree w)
    (hs : move_assign d s w = .ok w1) : BytesAgree w1 := by
  unfold move_assign at hs
  split at hs
  · next c o hc ho =>
    split at hs
    · split at hs
      · cases hs
      · next w2 hw2 =>
        simp only at hs
        have h2 := agree_set_pointer (destruct_agree h hw2).1 d none
        split at hs
        · cases hs
        · split at hs
          · cases hs
          · next w4 hw4 =>
            have h4 : BytesAgree w4 := by
              split at hw4
              · cases hw4
                exact h2
              · split at hw4
                · cases hw4
                · split at hw4
                  · cases hw4
                  · next q w3 hcall =>
                    cases hw4
                    exact agree_set_pointer (move_storage_call_agree h2 hcall) d _
            split at hs
            · cases hs
            · cases hs
              exact agree_set_move_storage (agree_set_delete_storage h4 d _) d _
    · cases hs
      exact h
  · cases hs

theorem move_construct_throw_agree {d s : Addr} {w w1 : World} (h : BytesAgree w)
    (hs : move_construct_throw d s w = .ok w1) : BytesAgree w1 := by
  unfold move_construct_throw at hs
  split at hs
  · cases hs
  · cases hs
  · next o hf ho =>
    simp only at hs
    have h0 := agree_store_dead h d (some uninitialised) uninitialised_dead
    split at hs
    · cases hs
    · split at hs
      · cases hs
      · split at hs
        · cases hs
        · next w2 hw2 =>
          cases hs
          exact agree_store_dead (move_storage_throw_agree h0 hw2) d none
            (fun c hc => by cases hc)

theorem move_assign_throw_agree {d s : Addr} {w w1 : World} (h : BytesAgree w)
    (hs : move_assign_throw d s w = .ok w1) : BytesAgree w1 := by
  unfold move_assign_throw at hs
  split at hs
  · next c o hc ho =>
    split at hs
    · split at hs
      · cases hs
      · next w2 hw2 =>
        simp only at hs
        have h2 := agree_set_pointer (destruct_agree h hw2).1 d none
        split at hs
        · cases hs
        · split at hs
          · cases hs
          · split at hs
            · cases hs
            · exact move_storage_throw_agree h2 hs
    · cases hs
  · cases hs

theorem step_agree {op : Op} {w w1 : World} (h : BytesAgree w) (hs : step op w = .ok w1) :
    BytesAgree w1 := by
  cases op with
  | construct this T v => exact construct_from_agree h hs
  | construct_lvalue this T v => exact construct_from_agree h hs
  | destruct a => exact (destruct_agree h hs).1
  | destroy a => exact destroy_agree h hs
  | move_construct d s => exact move_construct_agree h hs
  | move_assign d s => exact move_assign_agree h hs
  | move_construct_throw d s => exact move_construct_throw_agree h hs
  | move_assign_throw d s => exact move_assign_throw_agree h hs
  | get T a =>
    rw [step_get hs]
    exact h

theorem run_agree {ops : List Op} {w w1 : World} (h : BytesAgree w)
    (hs : run ops w = .ok w1) : BytesAgree w1 := by
  induction ops generalizing w with
  | nil =>
    simp only [run] at hs
    cases hs
    exact h
  | cons op rest ih =>
    simp only [run] at hs
    split at hs
    · cases hs
    · next w2 h2 => exact ih (step_agree h h2) hs

/-- In every reachable world the bytes of a storage that holds a live payload are that
payload. -/
theorem reachable_agree {w : World} (h : Reachable w) : BytesAgree w := by
  obtain ⟨ops, hops⟩ := h
  refine run_agree ?_ hops
  intro a c p hc
  simp [World.empty] at hc

/-- C19: typed access checks nothing and changes nothing.  For every container of a
reachable world and every type `T`, `get<T>()` returns the reference to the
container's own storage typed `T`, and the world it was called on: marker, storage
contents and handlers are as before, and a second call gives the same result.  What
the reference designates is the bytes of the storage read as a `T`: the live payload
if there is one, whether or not its type is `T`, and the same bytes still after
`destruct()` has ended its lifetime and cleared the marker.  Neither the marker nor
the handlers play a part: any container, in any world, whose storage holds the same
bytes reads the same. -/
theorem get_reads_storage_only (w : World) (a : Addr) (T : PayloadType) (c : unique_any)
    (hr : Reachable w) (hc : w.mem a = some c) :
    get T a w = .ok ({ addr := a, type := T }, w) ∧
    (∀ r w1, get T a w = .ok (r, w1) → w1 = w ∧ get T a w1 = .ok (r, w1)) ∧
    step (.get T a) w = .ok w ∧
    (∀ p, c.type_erased_storage = some p →
      Ref.read { addr := a, type := T } w = some { p with type := T }) ∧
    (∀ w1, destruct a w = .ok w1 →
      occupied a w1 = false ∧
      Ref.read { addr := a, type := T } w1 = Ref.read { addr := a, type := T } w) ∧
    (∀ w2 a2 c2, w2.mem a2 = some c2 → w2.bytes a2 = w.bytes a →
      get T a2 w2 = .ok ({ addr := a2, type := T }, w2) ∧
      Ref.read { addr := a2, type := T } w2 = Ref.read { addr := a, type := T } w) := by
  have hg : get T a w = .ok ({ addr := a, type := T }, w) := by simp [get, hc]
  refine ⟨hg, ?_, by simp [step, get, hc], ?_, ?_, ?_⟩
  · intro r w1 h
    rw [hg] at h
    simp only [Except.ok.injEq, Prod.mk.injEq] at h
    obtain ⟨h1, h2⟩ := h
    subst h2
    exact ⟨rfl, by rw [hg, h1]⟩
  · intro p hp
    simp [Ref.read, reachable_agree hr a c p hc hp, read_as]
  · intro w1 h
    obtain ⟨w2, hd, hm, -⟩ := destruct_spec hc (reachable_inv hr a c hc)
    rw [hd] at h
    cases h
    refine ⟨by simp [occupied, hm a], ?_⟩
    simp [Ref.read, (destruct_agree (reachable_agree hr) hd).2]
  · intro w2 a2 c2 hc2 hb
    exact ⟨by simp [get, hc2], by simp [Ref.read, hb]⟩

/-- Witness for C19: on the container holding `NonCopyable{5}`, `get<float>()` returns
the reference to its storage and reads the bytes of the `NonCopyable` as a `float`;
and the container that was emptied by an assignment from an emptied `float` container
(null marker, `float` handlers) still reads `NonCopyable{5}`. -/
theorem get_reads_storage_only_witness :
    (get float 0 holding_noncopyable =
        .ok ({ addr := 0, type := float }, holding_noncopyable) ∧
      (∀ r w1, get float 0 holding_noncopyable = .ok (r, w1) →
        w1 = holding_noncopyable ∧ get float 0 w1 = .ok (r, w1)) ∧
      step (.get float 0) holding_noncopyable = .ok holding_noncopyable ∧
      (∀ p, (some { type := NonCopyable, value := 5, moved_from := false } : Option Payload)
          = some p →
        Ref.read { addr := 0, type := float } holding_noncopyable =
          some { p with type := float }) ∧
      (∀ w1, destruct 0 holding_noncopyable = .ok w1 →
        occupied 0 w1 = false ∧
        Ref.read { addr := 0, type := float } w1 =
          Ref.read { addr := 0, type := float } holding_noncopyable) ∧
      (∀ w2 a2 c2, w2.mem a2 = some c2 → w2.bytes a2 = holding_noncopyable.bytes 0 →
        get float a2 w2 = .ok ({ addr := a2, type := float }, w2) ∧
        Ref.read { addr := a2, type := float } w2 =
          Ref.read { addr := 0, type := float } holding_noncopyable)) ∧
      Ref.read { addr := 0, type := float } holding_noncopyable =
        some { type := float, value := 5, moved_from := false } ∧
      container_at (.ok emptied_by_assign) 0 = some
        { pointer := none
          type_erased_storage := none
          delete_storage := some float
          move_storage := some float } ∧
      Ref.read { addr := 0, type := NonCopyable } emptied_by_assign =
        some { type := NonCopyable, value := 5, moved_from := false } :=
  ⟨get_reads_storage_only holding_noncopyable 0 float
    { pointer := some 0
      type_erased_storage := some { type := NonCopyable, value := 5, moved_from := false }
      delete_storage := some NonCopyable
      move_storage := some NonCopyable }
    ⟨[.construct 0 NonCopyable 5], rfl⟩ rfl, rfl, rfl, rfl⟩

/-! ## Accounting of payload constructions and destructions -/

theorem built_at_append (a : Addr) (t1 t2 : List Event) :
    built_at a (t1 ++ t2) = built_at a t1 + built_at a t2 := by
  simp [built_at, List.countP_append]

theorem destroyed_at_append (a : Addr) (t1 t2 : List Event) :
    destroyed_at a (t1 ++ t2) = destroyed_at a t1 + destroyed_at a t2 := by
  simp [destroyed_at, List.countP_append]

theorem built_at_destructor_calls (x a : Addr) (c : unique_any) :
    built_at x (destructor_calls a c) = 0 := by
  unfold destructor_calls
  split <;> simp [built_at, Event.builds_at]

theorem destroyed_at_destructor_calls {a : Addr} {c : unique_any} (hc : Consistent a c)
    (x : Addr) :
    destroyed_at x (destructor_calls a c) = if x = a ∧ c.pointer ≠ none then 1 else 0 := by
  obtain ⟨H, hH, -, -⟩ := hc.1
  cases hp : c.pointer with
  | none => simp [destructor_calls, hp, destroyed_at]
  | some q =>
    by_cases hx : x = a
    · simp [destructor_calls, hp, hH, destroyed_at, Event.destroys_at, hx]
    · simp [destructor_calls, hp, hH, destroyed_at, Event.destroys_at, hx, Ne.symm hx]

theorem no_abandon_destructor_calls (x a : Addr) (c : unique_any) :
    Event.abandoned x ∉ destructor_calls a c := by
  unfold destructor_calls
  split <;> simp

theorem occupied_of_none {w : World} {a : Addr} (h : w.mem a = none) :
    occupied a w = false := by
  simp [occupied, h]

theorem balanced_empty : Balanced World.empty := by
  intro a
  simp [World.empty, built_at, destroyed_at, occupied]

theorem construct_preserves_balanced {cat : ValueCategory} {w w1 : World} {this : Addr}
    {T : PayloadType} {v : Nat} (hb : Balanced w)
    (hs : construct_from cat this T v w = .ok w1) : Balanced w1 := by
  obtain ⟨-, -, hf, hm, ht, -⟩ := construct_from_spec hs
  intro x
  have hx := hb x
  rw [ht, built_at_append, destroyed_at_append]
  by_cases hxt : x = this
  · subst hxt
    rw [occupied_of_none hf] at hx
    have h1 : occupied x w1 = true := by simp [occupied, hm x]
    rw [h1]
    simp [built_at, destroyed_at, Event.builds_at, Event.destroys_at] at hx ⊢
    omega
  · have h1 : occupied x w1 = occupied x w := by
      simp [occupied, hm x, hxt]
    rw [h1]
    simp [built_at, destroyed_at, Event.builds_at, Event.destroys_at, Ne.symm hxt] at hx ⊢
    omega

theorem occupied_congr {w w1 : World} {x : Addr} (h : w1.mem x = w.mem x) :
    occupied x w1 = occupied x w := by
  simp [occupied, h]

theorem destruct_preserves_balanced {w w1 : World} {a : Addr} (hi : Inv w)
    (hb : Balanced w) (hs : destruct a w = .ok w1) : Balanced w1 := by
  cases hc : w.mem a with
  | none => simp [destruct, hc] at hs
  | some c =>
    have hcc := hi a c hc
    obtain ⟨w2, hd, hm, ht⟩ := destruct_spec hc hcc
    rw [hd] at hs
    cases hs
    intro x
    have hx := hb x
    rw [ht, built_at_append, destroyed_at_append, built_at_destructor_calls,
      destroyed_at_destructor_calls hcc]
    by_cases hxa : x = a
    · subst hxa
      have h1 : occupied x w1 = false := by simp [occupied, hm x]
      rw [occupied_of_mem hc] at hx
      rw [h1]
      cases hp : c.pointer with
      | none => simp [hp] at hx ⊢; omega
      | some q => simp [hp] at hx ⊢; omega
    · have h1 : occupied x w1 = occupied x w := occupied_congr (by simp [hm x, hxa])
      rw [h1]
      simp [hxa]
      omega

theorem destruct_preserves_no_abandon {w w1 : World} {a : Addr} (hi : Inv w)
    (hn : NoAbandon w) (hs : destruct a w = .ok w1) : NoAbandon w1 := by
  cases hc : w.mem a with
  | none => simp [destruct, hc] at hs
  | some c =>
    obtain ⟨w2, hd, -, ht⟩ := destruct_spec hc (hi a c hc)
    rw [hd] at hs
    cases hs
    intro x hx
    rw [ht, List.mem_append] at hx
    rcases hx with hx | hx
    · exact hn x hx
    · exact no_abandon_destructor_calls x a c hx

theorem destroy_preserves_balanced {w w1 : World} {a : Addr} (hi : Inv w)
    (hb : Balanced w) (hs : destroy a w = .ok w1) : Balanced w1 := by
  unfold destroy at hs
  split at hs
  · cases hs
  · next w2 hd =>
    cases hs
    have hb2 := destruct_preserves_balanced hi hb hd
    have hocc : occupied a w2 = false := by
      cases hc : w.mem a with
      | none => simp [destruct, hc] at hd
      | some c =>
        obtain ⟨w3, hd3, hm, -⟩ := destruct_spec hc (hi a c hc)
        rw [hd3] at hd
        cases hd
        simp [occupied, hm a]
    intro x
    have hx := hb2 x
    by_cases hxa : x = a
    · subst hxa
      have h1 : occupied x ((w2.store x none).set_bytes x none) = false := by
        simp [occupied]
      rw [hocc] at hx
      rw [h1]
      simpa using hx
    · have h1 : occupied x ((w2.store a none).set_bytes a none) = occupied x w2 :=
        occupied_congr (by simp [hxa])
      rw [h1]
      simpa using hx

theorem destroy_preserves_no_abandon {w w1 : World} {a : Addr} (hi : Inv w)
    (hn : NoAbandon w) (hs : destroy a w = .ok w1) : NoAbandon w1 := by
  unfold destroy at hs
  split at hs
  · cases hs
  · next w2 hd =>
    cases hs
    intro x hx
    exact destruct_preserves_no_abandon hi hn hd x (by simpa using hx)

theorem move_construct_preserves_balanced {w w1 : World} {d s : Addr} (hi : Inv w)
    (hb : Balanced w) (hs : move_construct d s w = .ok w1) : Balanced w1 := by
  cases hf : w.mem d with
  | some c => simp [move_construct, hf] at hs
  | none =>
    cases ho : w.mem s with
    | none => simp [move_construct, hf, ho] at hs
    | some o =>
      have hoc := hi s o ho
      have hne : s ≠ d := by rintro rfl; simp [hf] at ho
      by_cases hp : o.pointer = none
      · obtain ⟨w2, hd, hm, ht⟩ := move_construct_of_empty hf ho hp
        rw [hd] at hs
        cases hs
        intro x
        have hx := hb x
        rw [ht]
        by_cases hxd : x = d
        · subst hxd
          have h1 : occupied x w1 = false := by simp [occupied, hm x]
          rw [occupied_of_none hf] at hx
          rw [h1]
          exact hx
        · have h1 : occupied x w1 = occupied x w := occupied_congr (by simp [hm x, hxd])
          rw [h1]
          exact hx
      · obtain ⟨hpo, p, hps, -, hpm⟩ := consistent_occupied hoc hp
        obtain ⟨w2, hd, hm, ht⟩ := move_construct_of_occupied hf ho hpo hps hpm
        rw [hd] at hs
        cases hs
        intro x
        have hx := hb x
        rw [ht, built_at_append, destroyed_at_append]
        by_cases hxd : x = d
        · subst hxd
          have h1 : occupied x w1 = true := by simp [occupied, hm x]
          rw [occupied_of_none hf] at hx
          rw [h1]
          simp [built_at, destroyed_at, Event.builds_at, Event.destroys_at] at hx ⊢
          omega
        · have h1 : occupied x w1 = occupied x w := by
            by_cases hxs : x = s
            · subst hxs
              simp [occupied, hm x, hxd, ho]
            · exact occupied_congr (by simp [hm x, hxd, hxs])
          rw [h1]
          simp [built_at, destroyed_at, Event.builds_at, Event.destroys_at,
            Ne.symm hxd] at hx ⊢
          omega

theorem move_construct_preserves_no_abandon {w w1 : World} {d s : Addr} (hi : Inv w)
    (hn : NoAbandon w) (hs : move_construct d s w = .ok w1) : NoAbandon w1 := by
  cases hf : w.mem d with
  | some c => simp [move_construct, hf] at hs
  | none =>
    cases ho : w.mem s with
    | none => simp [move_construct, hf, ho] at hs
    | some o =>
      by_cases hp : o.pointer = none
      · obtain ⟨w2, hd, -, ht⟩ := move_construct_of_empty hf ho hp
        rw [hd] at hs
        cases hs
        intro x hx
        rw [ht] at hx
        exact hn x hx
      · obtain ⟨hpo, p, hps, -, hpm⟩ := consistent_occupied (hi s o ho) hp
        obtain ⟨w2, hd, -, ht⟩ := move_construct_of_occupied hf ho hpo hps hpm
        rw [hd] at hs
        cases hs
        intro x hx
        rw [ht, List.mem_append] at hx
        rcases hx with hx | hx
        · exact hn x hx
        · simp at hx

theorem move_assign_preserves_balanced {w w1 : World} {d s : Addr} (hi : Inv w)
    (hb : Balanced w) (hs : move_assign d s w = .ok w1) : Balanced w1 := by
  cases hc : w.mem d with
  | none => simp [move_assign, hc] at hs
  | some c =>
    cases ho : w.mem s with
    | none => simp [move_assign, hc, ho] at hs
    | some o =>
      have hcc := hi d c hc
      have hoc := hi s o ho
      by_cases hsame : o.pointer = c.pointer
      · rw [move_assign_of_same_pointer hc ho hsame] at hs
        cases hs
        exact hb
      · have hne : d ≠ s := by
          rintro rfl
          rw [hc] at ho
          cases ho
          exact hsame rfl
        by_cases hp : o.pointer = none
        · have hcp : c.pointer ≠ none := fun h => hsame (by rw [hp, h])
          obtain ⟨w2, hd, hm, ht⟩ := move_assign_of_empty hne hc ho hcc hcp hp
          rw [hd] at hs
          cases hs
          intro x
          have hx := hb x
          rw [ht, built_at_append, destroyed_at_append, built_at_destructor_calls,
            destroyed_at_destructor_calls hcc]
          by_cases hxd : x = d
          · subst hxd
            have h1 : occupied x w1 = false := by simp [occupied, hm x]
            have h0 : occupied x w = true := by
              rw [occupied_of_mem hc]
              cases hq : c.pointer with
              | none => exact absurd hq hcp
              | some q => rfl
            rw [h0] at hx
            rw [h1]
            simp [hcp] at hx ⊢
            omega
          · have h1 : occupied x w1 = occupied x w := occupied_congr (by simp [hm x, hxd])
            rw [h1]
            simp [hxd]
            omega
        · obtain ⟨hpo, p, hps, -, hpm⟩ := consistent_occupied hoc hp
          obtain ⟨w2, hd, hm, ht⟩ := move_assign_of_occupied hne hc ho hcc hpo hps hpm
          rw [hd] at hs
          cases hs
          intro x
          have hx := hb x
          rw [ht, built_at_append, destroyed_at_append, built_at_append,
            destroyed_at_append, built_at_destructor_calls,
            destroyed_at_destructor_calls hcc]
          by_cases hxd : x = d
          · subst hxd
            have h1 : occupied x w1 = true := by simp [occupied, hm x]
            rw [occupied_of_mem hc] at hx
            rw [h1]
            cases hq : c.pointer with
            | none =>
              simp [hq, built_at, destroyed_at, Event.builds_at, Event.destroys_at] at hx ⊢
              omega
            | some q =>
              simp [hq, built_at, destroyed_at, Event.builds_at, Event.destroys_at] at hx ⊢
              omega
          · have h1 : occupied x w1 = occupied x w := by
              by_cases hxs : x = s
              · subst hxs
                simp [occupied, hm x, hxd, ho]
              · exact occupied_congr (by simp [hm x, hxd, hxs])
            rw [h1]
            simp [hxd, built_at, destroyed_at, Event.builds_at, Event.destroys_at,
              Ne.symm hxd] at hx ⊢
            omega

theorem move_assign_preserves_no_abandon {w w1 : World} {d s : Addr} (hi : Inv w)
    (hn : NoAbandon w) (hs : move_assign d s w = .ok w1) : NoAbandon w1 := by
  cases hc : w.mem d with
  | none => simp [move_assign, hc] at hs
  | some c =>
    cases ho : w.mem s with
    | none => simp [move_assign, hc, ho] at hs
    | some o =>
      have hcc := hi d c hc
      by_cases hsame : o.pointer = c.pointer
      · rw [move_assign_of_same_pointer hc ho hsame] at hs
        cases hs
        exact hn
      · have hne : d ≠ s := by
          rintro rfl
          rw [hc] at ho
          cases ho
          exact hsame rfl
        by_cases hp : o.pointer = none
        · have hcp : c.pointer ≠ none := fun h => hsame (by rw [hp, h])
          obtain ⟨w2, hd, -, ht⟩ := move_assign_of_empty hne hc ho hcc hcp hp
          rw [hd] at hs
          cases hs
          intro x hx
          rw [ht, List.mem_append] at hx
          rcases hx with hx | hx
          · exact hn x hx
          · exact no_abandon_destructor_calls x d c hx
        · obtain ⟨hpo, p, hps, -, hpm⟩ := consistent_occupied (hi s o ho) hp
          obtain ⟨w2, hd, -, ht⟩ := move_assign_of_occupied hne hc ho hcc hpo hps hpm
          rw [hd] at hs
          cases hs
          intro x hx
          rw [ht, List.mem_append, List.mem_append] at hx
          rcases hx with (hx | hx) | hx
          · exact hn x hx
          · exact no_abandon_destructor_calls x d c hx
          · simp at hx

theorem construct_preserves_no_abandon {cat : ValueCategory} {w w1 : World} {this : Addr}
    {T : PayloadType} {v : Nat} (hn : NoAbandon w)
    (hs : construct_from cat this T v w = .ok w1) : NoAbandon w1 := by
  obtain ⟨-, -, -, -, ht, -⟩ := construct_from_spec hs
  intro x hx
  rw [ht, List.mem_append] at hx
  rcases hx with hx | hx
  · exact hn x hx
  · simp at hx

theorem move_construct_throw_preserves_audit {w w1 : World} {d s : Addr} (hi : Inv w)
    (hb : Balanced w ∧ NoAbandon w) (hs : move_construct_throw d s w = .ok w1) :
    Balanced w1 ∧ NoAbandon w1 := by
  obtain ⟨o, p, hf, ho, hpo, hps, hpm, hth⟩ := move_construct_throw_inv hi hs
  obtain ⟨w2, hd, hm, ht⟩ := move_construct_throw_spec hf ho hpo hps hpm hth
  rw [hd] at hs
  cases hs
  constructor
  · intro x
    have hx := hb.1 x
    rw [ht]
    have h1 : occupied x w1 = occupied x w := by
      by_cases hxs : x = s
      · subst hxs
        simp [occupied, hm x, ho]
      · exact occupied_congr (by simp [hm x, hxs])
    rw [h1]
    exact hx
  · intro x hx
    rw [ht] at hx
    exact hb.2 x hx

theorem move_assign_throw_preserves_audit {w w1 : World} {d s : Addr} (hi : Inv w)
    (hb : Balanced w ∧ NoAbandon w) (hs : move_assign_throw d s w = .ok w1) :
    Balanced w1 ∧ NoAbandon w1 := by
  obtain ⟨c, o, p, hne, hc, ho, hpo, hps, hpm, hth⟩ := move_assign_throw_inv hi hs
  have hcc := hi d c hc
  obtain ⟨w2, hd, hm, ht⟩ := move_assign_throw_spec hne hc ho hcc hpo hps hpm hth
  rw [hd] at hs
  cases hs
  constructor
  · intro x
    have hx := hb.1 x
    rw [ht, built_at_append, destroyed_at_append, built_at_destructor_calls,
      destroyed_at_destructor_calls hcc]
    by_cases hxd : x = d
    · subst hxd
      have h1 : occupied x w1 = false := by simp [occupied, hm x]
      rw [occupied_of_mem hc] at hx
      rw [h1]
      cases hq : c.pointer with
      | none => simp [hq] at hx ⊢; omega
      | some q => simp [hq] at hx ⊢; omega
    · have h1 : occupied x w1 = occupied x w := by
        by_cases hxs : x = s
        · subst hxs
          simp [occupied, hm x, hxd, ho]
        · exact occupied_congr (by simp [hm x, hxd, hxs])
      rw [h1]
      simp [hxd]
      omega
  · intro x hx
    rw [ht, List.mem_append] at hx
    rcases hx with hx | hx
    · exact hb.2 x hx
    · exact no_abandon_destructor_calls x d c hx

theorem step_preserves_audit {op : Op} {w w1 : World} (hi : Inv w)
    (hb : Balanced w ∧ NoAbandon w) (hs : step op w = .ok w1) :
    Balanced w1 ∧ NoAbandon w1 := by
  cases op with
  | construct this T v =>
    exact ⟨construct_preserves_balanced hb.1 hs, construct_preserves_no_abandon hb.2 hs⟩
  | destruct this =>
    exact ⟨destruct_preserves_balanced hi hb.1 hs, destruct_preserves_no_abandon hi hb.2 hs⟩
  | move_construct this other =>
    exact ⟨move_construct_preserves_balanced hi hb.1 hs,
      move_construct_preserves_no_abandon hi hb.2 hs⟩
  | move_assign this other =>
    exact ⟨move_assign_preserves_balanced hi hb.1 hs,
      move_assign_preserves_no_abandon hi hb.2 hs⟩
  | destroy this =>
    exact ⟨destroy_preserves_balanced hi hb.1 hs, destroy_preserves_no_abandon hi hb.2 hs⟩
  | construct_lvalue this T v =>
    exact ⟨construct_preserves_balanced hb.1 hs, construct_preserves_no_abandon hb.2 hs⟩
  | move_construct_throw this other => exact move_construct_throw_preserves_audit hi hb hs
  | move_assign_throw this other => exact move_assign_throw_preserves_audit hi hb hs
  | get T this =>
    rw [step_get hs]
    exact hb

theorem run_preserves_audit {ops : List Op} {w w1 : World} (hi : Inv w)
    (hb : Balanced w ∧ NoAbandon w) (hs : run ops w = .ok w1) :
    Balanced w1 ∧ NoAbandon w1 := by
  induction ops generalizing w with
  | nil =>
    simp only [run] at hs
    cases hs
    exact hb
  | cons op rest ih =>
    simp only [run] at hs
    split at hs
    · cases hs
    · next w2 h2 => exact ih (step_preserves_inv hi h2) (step_preserves_audit hi hb h2) hs

/-- Every reachable world is balanced, storage by storage, and no placement-new of its
history landed on a live payload. -/
theorem reachable_audit {w : World} (h : Reachable w) : Balanced w ∧ NoAbandon w := by
  obtain ⟨ops, hops⟩ := h
  refine run_preserves_audit inv_empty ⟨balanced_empty, ?_⟩ hops
  intro a ha
  simp [World.empty] at ha

/-! ## From the per-storage balance to the global count -/

theorem sum_indicator_eq_count (L : List Addr) (b : Addr) :
    (L.map (fun a => if b = a then 1 else 0)).sum = L.count b := by
  induction L with
  | nil => simp
  | cons x rest ih =>
    simp only [List.map_cons, List.sum_cons, ih, List.count_cons]
    by_cases h : b = x
    · simp [h]; omega
    · have h2 : ¬ x = b := fun e => h e.symm
      simp [h, h2]

theorem sum_indicator_eq_countP (L : List Addr) (p : Addr → Bool) :
    (L.map (fun a => if p a = true then 1 else 0)).sum = L.countP p := by
  induction L with
  | nil => simp
  | cons x rest ih =>
    simp only [List.map_cons, List.sum_cons, ih, List.countP_cons]
    omega

theorem sum_map_add_nat (L : List Addr) (f g : Addr → Nat) :
    (L.map (fun a => f a + g a)).sum = (L.map f).sum + (L.map g).sum := by
  induction L with
  | nil => simp
  | cons x rest ih =>
    simp only [List.map_cons, List.sum_cons, ih]
    omega

/-- Counting the events of a kind storage by storage, over a duplicate-free list of
addresses that covers the trace, gives the number of events of that kind. -/
theorem sum_countP_sites (P : Event → Bool) (Q : Addr → Event → Bool)
    (hQ : ∀ a e, Q a e = (P e && decide (e.site = a))) (L : List Addr) (hL : L.Nodup)
    (tr : List Event) (hcov : ∀ e ∈ tr, e.site ∈ L) :
    (L.map (fun a => tr.countP (Q a))).sum = tr.countP P := by
  induction tr with
  | nil => simp
  | cons e rest ih =>
    have hrest : ∀ e2 ∈ rest, e2.site ∈ L := fun e2 h2 => hcov e2 (List.mem_cons_of_mem _ h2)
    have he : e.site ∈ L := hcov e (List.mem_cons_self _ _)
    simp only [List.countP_cons]
    rw [sum_map_add_nat, ih hrest]
    congr 1
    by_cases hP : P e = true
    · have h1 : (fun a => if Q a e = true then 1 else 0) =
          (fun a => if e.site = a then 1 else 0) := by
        funext a
        simp [hQ, hP]
      rw [h1, sum_indicator_eq_count, List.count_eq_one_of_mem hL he]
      simp [hP]
    · have h1 : (fun a => if Q a e = true then 1 else 0) = (fun _ => 0) := by
        funext a
        simp [hQ, hP]
      rw [h1]
      simp [hP]

theorem builds_at_eq (a : Addr) (e : Event) :
    Event.builds_at a e = (Event.is_construction e && decide (e.site = a)) := by
  cases e <;> simp [Event.builds_at, Event.is_construction, Event.site]

theorem destroys_at_eq (a : Addr) (e : Event) :
    Event.destroys_at a e = (Event.is_destruction e && decide (e.site = a)) := by
  cases e <;> simp [Event.destroys_at, Event.is_destruction, Event.site]

/-- An occupied container of a balanced world lives at an address of the trace. -/
theorem occupied_mem_sites {w : World} (hb : Balanced w) {a : Addr}
    (ho : occupied a w = true) : a ∈ (w.trace.map Event.site).dedup := by
  have h := hb a
  rw [ho] at h
  have hpos : 0 < List.countP (Event.builds_at a) w.trace := by
    have : built_at a w.trace = List.countP (Event.builds_at a) w.trace := rfl
    simp only [if_true] at h
    omega
  obtain ⟨e, he, hbe⟩ := List.countP_pos_iff.mp hpos
  rw [builds_at_eq] at hbe
  have hsite : e.site = a := by
    simp only [Bool.and_eq_true, decide_eq_true_eq] at hbe
    exact hbe.2
  rw [List.mem_dedup, List.mem_map]
  exact ⟨e, he, hsite⟩

/-- In a balanced world the payloads constructed so far are the payloads destroyed so
far plus one per occupied container. -/
theorem balanced_global {w : World} (hb : Balanced w) :
    constructions w.trace = destructions w.trace + (occupied_containers w).length := by
  have hL : ((w.trace.map Event.site).dedup).Nodup := List.nodup_dedup _
  have hcov : ∀ e ∈ w.trace, e.site ∈ (w.trace.map Event.site).dedup := by
    intro e he
    rw [List.mem_dedup, List.mem_map]
    exact ⟨e, he, rfl⟩
  have h1 := sum_countP_sites Event.is_construction Event.builds_at builds_at_eq _ hL
    w.trace hcov
  have h2 := sum_countP_sites Event.is_destruction Event.destroys_at destroys_at_eq _ hL
    w.trace hcov
  have h3 : (((w.trace.map Event.site).dedup).map
      (fun a => List.countP (Event.builds_at a) w.trace)).sum =
      (((w.trace.map Event.site).dedup).map
        (fun a => List.countP (Event.destroys_at a) w.trace +
          (if occupied a w = true then 1 else 0))).sum := by
    congr 1
    apply List.map_congr_left
    intro a _
    exact hb a
  rw [sum_map_add_nat, sum_indicator_eq_countP] at h3
  unfold constructions destructions occupied_containers
  rw [← h1, ← h2, h3, List.countP_eq_length_filter]

/-- C14: in every reachable world, and after any further operation, no placement-new
of the history landed on storage that still held a live payload (the converting
constructor and the move constructor write into the storage of a container under
construction, and move assignment destroys the destination's payload first); so for
every storage the payloads constructed in it exceed the payloads destroyed in it by
zero or by one.  In particular a move assignment between two distinct occupied
containers first calls the destructor of the destination's payload and only then the
mover. -/
theorem one_payload_per_storage (w : World) (hr : Reachable w) :
    (∀ a, Event.abandoned a ∉ w.trace) ∧
    (∀ op w1, step op w = .ok w1 → ∀ a, Event.abandoned a ∉ w1.trace) ∧
    (∀ a, built_at a w.trace = destroyed_at a w.trace ∨
      built_at a w.trace = destroyed_at a w.trace + 1) ∧
    (∀ d s cd cs pd, d ≠ s → w.mem d = some cd → w.mem s = some cs →
      cd.type_erased_storage = some pd → cs.pointer ≠ none →
      ∃ w1 T, move_assign d s w = .ok w1 ∧
        w1.trace = w.trace ++ [.destroyed pd.type d, .moved T d s]) := by
  have hi := reachable_inv hr
  have ha := reachable_audit hr
  refine ⟨ha.2, fun op w1 hs => (reachable_audit (reachable_step hr hs)).2, ?_, ?_⟩
  · intro a
    have h := ha.1 a
    by_cases ho : occupied a w = true
    · right; simpa [ho] using h
    · left; simpa [ho] using h
  · intro d s cd cs pd hne hd hs hpd hso
    have hcd := hi d cd hd
    have hdo : cd.pointer ≠ none := by
      intro h0
      rw [inv_empty_storage hcd h0] at hpd
      cases hpd
    obtain ⟨hps, p, hsp, -, hpm⟩ := consistent_occupied (hi s cs hs) hso
    obtain ⟨w1, hma, -, ht⟩ := move_assign_of_occupied hne hd hs hcd hps hsp hpm
    refine ⟨w1, p.type, hma, ?_⟩
    rw [ht, destructor_calls_of_occupied hcd hdo hpd]
    simp

/-- Witness for C14: in the assignment `any = 23.5f` of `main` the `NonCopyable` in the
destination is destroyed before the `float` is move-constructed there. -/
theorem one_payload_per_storage_witness :
    ∃ w1 T, move_assign 0 1 main_before_assign = .ok w1 ∧
      w1.trace = main_before_assign.trace ++ [.destroyed NonCopyable 0, .moved T 0 1] :=
  (one_payload_per_storage main_before_assign
    ⟨[.construct 0 NonCopyable 5, .construct 1 float float_23_5], rfl⟩).2.2.2 0 1
    { pointer := some 0
      type_erased_storage := some { type := NonCopyable, value := 5, moved_from := false }
      delete_storage := some NonCopyable
      move_storage := some NonCopyable }
    { pointer := some 1
      type_erased_storage := some { type := float, value := float_23_5, moved_from := false }
      delete_storage := some float
      move_storage := some float }
    { type := NonCopyable, value := 5, moved_from := false }
    (by decide) rfl rfl rfl (by simp)

/-- C16: in every reachable world, for every storage the payloads constructed in it
(from a value or by a move) are the payloads destroyed in it plus one if its container
is occupied; summed over all storages, the payload objects constructed so far are the
destructor calls so far plus the number of containers whose marker is non-null
(`occupied_containers` lists exactly those, each once).  Consequently, when no
container is occupied any more, every storage has seen as many destructor calls as
constructions, and so has the program as a whole. -/
theorem no_leak_no_double_destruction (w : World) (hr : Reachable w) :
    (∀ a, built_at a w.trace =
      destroyed_at a w.trace + (if occupied a w = true then 1 else 0)) ∧
    (occupied_containers w).Nodup ∧
    (∀ a, a ∈ occupied_containers w ↔ occupied a w = true) ∧
    constructions w.trace = destructions w.trace + (occupied_containers w).length ∧
    ((∀ a, occupied a w = false) →
      constructions w.trace = destructions w.trace ∧
      ∀ a, built_at a w.trace = destroyed_at a w.trace) := by
  have hb := (reachable_audit hr).1
  have hmem : ∀ a, a ∈ occupied_containers w ↔ occupied a w = true := by
    intro a
    unfold occupied_containers
    rw [List.mem_filter]
    constructor
    · intro h; exact h.2
    · intro h; exact ⟨occupied_mem_sites hb h, h⟩
  refine ⟨hb, (List.nodup_dedup _).filter _, hmem, balanced_global hb, ?_⟩
  intro hall
  have hnil : occupied_containers w = [] := by
    apply List.eq_nil_iff_forall_not_mem.mpr
    intro a ha
    have := (hmem a).mp ha
    rw [hall a] at this
    cases this
  constructor
  · have h := balanced_global hb
    rw [hnil] at h
    simpa using h
  · intro a
    have h := hb a
    rw [hall a] at h
    simpa using h

/-- Witness for C16: the whole of `main`: three payloads are constructed (the
`NonCopyable`, the temporary `float`, the `float` moved into `any`), three destructor
calls are made, and no container is left. -/
theorem no_leak_no_double_destruction_witness :
    constructions main_done.trace =
        destructions main_done.trace + (occupied_containers main_done).length ∧
      constructions main_done.trace = 3 ∧ destructions main_done.trace = 3 ∧
      occupied_containers main_done = [] :=
  ⟨(no_leak_no_double_destruction main_done
    ⟨[.construct 0 NonCopyable 5, .construct 1 float float_23_5, .move_assign 0 1,
      .destroy 1, .destroy 0], rfl⟩).2.2.2.1, rfl, rfl, rfl⟩

end UniqueAny
